import Mathlib

/-!
Verification development for the golfscript-rs interpreter.

The repository has two evaluators sharing helper modules:
  - src/lib.rs: the sandboxed evaluator (struct Gs with stack, vars, lb,
    rng_state, stable, output, max_loops) and the entry point golfscript.
  - src/main.rs: the strict evaluator (struct Gs with stack, vars, lb),
    which panics on underflow and unimplemented operations.

The helper modules value.rs, util.rs, coerce.rs, parse.rs and unescape.rs
are declared (mod value; etc.) but their files are not present in the
repository snapshot; definitions taken from them are modelled from the
specification (marked below).

Representation conventions for the shallow embedding:
  - The value stack is a Lean list with the TOP at the HEAD (Rust keeps the
    top at the end of the Vec); Rust index i from the bottom corresponds to
    index (length - 1 - i) here.
  - The bracket stack lb is a Lean list with the NEWEST entry at the HEAD
    (Rust pushes to the end), so the top-to-bottom walk of Gs::pop is
    structural recursion.
  - Bytes are Nats (0..255); byte strings are lists of Nats.
  - The variable HashMap is an association list; insert conses a new pair
    in front and lookup takes the first match, which is observationally
    the map behaviour.
  - A Rust panic (unwrap on None, expect, todo!, division by zero on
    BigInt, out-of-range Vec slicing) is modelled as the Option value none;
    every state-transforming operation returns an Option.
  - Recursion through blocks (self.run on block bytes) is fuel-indexed;
    fuel exhaustion is also none, distinguished from real results only in
    that theorems quantify over or fix a sufficient fuel.
-/

/-- Values of the interpreter: the four-variant tagged union Gval of
value.rs (modelled from the spec, file missing): arbitrary-precision
integer, array of values, byte string, block of unparsed source bytes. -/
inductive Gval where
  | int : Int → Gval
  | arr : List Gval → Gval
  | str : List Nat → Gval
  | blk : List Nat → Gval
deriving Repr, Inhabited

mutual

/-- Boolean structural equality on values (variant-wise; the derived
PartialEq of the Rust type). -/
def Gval.beq : Gval → Gval → Bool
  | .int a, .int b => a == b
  | .arr a, .arr b => Gval.beqList a b
  | .str a, .str b => a == b
  | .blk a, .blk b => a == b
  | .int _, .arr _ => false
  | .int _, .str _ => false
  | .int _, .blk _ => false
  | .arr _, .int _ => false
  | .arr _, .str _ => false
  | .arr _, .blk _ => false
  | .str _, .int _ => false
  | .str _, .arr _ => false
  | .str _, .blk _ => false
  | .blk _, .int _ => false
  | .blk _, .arr _ => false
  | .blk _, .str _ => false

/-- Elementwise Gval.beq on lists. -/
def Gval.beqList : List Gval → List Gval → Bool
  | [], [] => true
  | x :: xs, y :: ys => Gval.beq x y && Gval.beqList xs ys
  | [], _ :: _ => false
  | _ :: _, [] => false

end

mutual

theorem Gval.beq_iff : ∀ a b : Gval, Gval.beq a b = true ↔ a = b
  | .int _, .int _ => by simp [Gval.beq]
  | .arr a, .arr b => by
      simp only [Gval.beq, Gval.arr.injEq]
      exact Gval.beqList_iff a b
  | .str _, .str _ => by simp [Gval.beq]
  | .blk _, .blk _ => by simp [Gval.beq]
  | .int _, .arr _ => by simp [Gval.beq]
  | .int _, .str _ => by simp [Gval.beq]
  | .int _, .blk _ => by simp [Gval.beq]
  | .arr _, .int _ => by simp [Gval.beq]
  | .arr _, .str _ => by simp [Gval.beq]
  | .arr _, .blk _ => by simp [Gval.beq]
  | .str _, .int _ => by simp [Gval.beq]
  | .str _, .arr _ => by simp [Gval.beq]
  | .str _, .blk _ => by simp [Gval.beq]
  | .blk _, .int _ => by simp [Gval.beq]
  | .blk _, .arr _ => by simp [Gval.beq]
  | .blk _, .str _ => by simp [Gval.beq]

theorem Gval.beqList_iff : ∀ xs ys : List Gval, Gval.beqList xs ys = true ↔ xs = ys
  | [], [] => by simp [Gval.beqList]
  | x :: xs, y :: ys => by
      simp only [Gval.beqList, Bool.and_eq_true, List.cons.injEq]
      exact and_congr (Gval.beq_iff x y) (Gval.beqList_iff xs ys)
  | [], _ :: _ => by simp [Gval.beqList]
  | _ :: _, [] => by simp [Gval.beqList]

end

instance : DecidableEq Gval := fun a b => decidable_of_iff _ (Gval.beq_iff a b)

/-! ## Value operations (modelled from the spec, value.rs missing) -/

/-- Modelled from the spec: truthiness of a value; Int 0 and empty
Arr/Str/Blk are falsey, everything else truthy. -/
def Gval.falsey : Gval → Bool
  | .int n => n == 0
  | .arr xs => xs.isEmpty
  | .str bs => bs.isEmpty
  | .blk bs => bs.isEmpty

/-- Value truthiness, the negation of Gval.falsey. -/
def Gval.truthy (v : Gval) : Bool := !v.falsey

/-- Modelled from the spec: Gval::bool, the Int encoding of a boolean. -/
def Gval.ofBool (b : Bool) : Gval := .int (if b then 1 else 0)

/-- Decimal digit bytes of a natural number, most significant first
(helper for the to_gs and inspect renderings). -/
def natDecBytes (n : Nat) : List Nat :=
  if n = 0 then [48] else (go n n).reverse
where
  go : Nat → Nat → List Nat
    | 0, _ => []
    | _ + 1, 0 => []
    | fuel + 1, m + 1 => ((m + 1) % 10 + 48) :: go fuel ((m + 1) / 10)

/-- Signed decimal byte rendering of an integer. -/
def intDecBytes (i : Int) : List Nat :=
  if i < 0 then 45 :: natDecBytes (-i).toNat else natDecBytes i.toNat

mutual

/-- Modelled from the spec: to_gs, the unadorned byte rendering:
integers as signed decimal, strings as raw bytes, arrays as the
concatenation of their elements' to_gs, blocks framed with braces. -/
def Gval.to_gs : Gval → List Nat
  | .int n => intDecBytes n
  | .arr xs => Gval.to_gsList xs
  | .str bs => bs
  | .blk bs => 123 :: (bs ++ [125])

/-- Concatenated to_gs of a list of values. -/
def Gval.to_gsList : List Gval → List Nat
  | [] => []
  | x :: xs => Gval.to_gs x ++ Gval.to_gsList xs

end

/-- Escape the bytes of a string body for inspect: double quote (34) and
backslash (92) are prefixed with a backslash. -/
def inspectEscape : List Nat → List Nat
  | [] => []
  | b :: bs => (if b = 34 || b = 92 then [92, b] else [b]) ++ inspectEscape bs

mutual

/-- Modelled from the spec: inspect, the round-trippable rendering:
integers as decimal, strings double-quoted with escapes, arrays as
space-separated inspects in brackets, blocks framed with braces. -/
def Gval.inspect : Gval → List Nat
  | .int n => intDecBytes n
  | .arr xs => 91 :: (Gval.inspectList xs ++ [93])
  | .str bs => 34 :: (inspectEscape bs ++ [34])
  | .blk bs => 123 :: (bs ++ [125])

/-- Space-separated inspects of a list of values. -/
def Gval.inspectList : List Gval → List Nat
  | [] => []
  | [x] => Gval.inspect x
  | x :: y :: xs => Gval.inspect x ++ 32 :: Gval.inspectList (y :: xs)

end

/-- Modelled from the spec: factory, an empty value of the same kind
(used by zip for padding). -/
def Gval.factory : Gval → Gval
  | .int _ => .int 0
  | .arr _ => .arr []
  | .str _ => .str []
  | .blk _ => .blk []

/-- Modelled from the spec: kind rank Int < Arr < Str < Blk used by
coercion. -/
def Gval.rank : Gval → Nat
  | .int _ => 0
  | .arr _ => 1
  | .str _ => 2
  | .blk _ => 3

/-- Promotion of a value of rank at most Arr to an array
(an Int becomes a one-element array). -/
def Gval.toArrL : Gval → List Gval
  | .int n => [.int n]
  | .arr xs => xs
  | .str bs => [.str bs]
  | .blk bs => [.blk bs]

/-- Promotion of a value to string bytes: an Int renders as decimal, an
array flattens via to_gs concatenation, Str and Blk give their bytes. -/
def Gval.toStrB : Gval → List Nat
  | .int n => intDecBytes n
  | .arr xs => Gval.to_gsList xs
  | .str bs => bs
  | .blk bs => bs

/-- The tagged result of coercing two values to a common kind
(enum Coerced of coerce.rs, modelled from the spec). -/
inductive Coerced where
  | ints : Int → Int → Coerced
  | arrs : List Gval → List Gval → Coerced
  | strs : List Nat → List Nat → Coerced
  | blks : List Nat → List Nat → Coerced
deriving Repr

/-- Modelled from the spec: coerce(a,b) promotes both values to the
higher-ranked kind of the two, following Int < Arr < Str < Blk. -/
def coerce (a b : Gval) : Coerced :=
  match max a.rank b.rank with
  | 0 =>
    match a, b with
    | .int x, .int y => .ints x y
    | _, _ => .ints 0 0
  | 1 => .arrs a.toArrL b.toArrL
  | 2 => .strs a.toStrB b.toStrB
  | _ => .blks a.toStrB b.toStrB

/-- Modelled from the spec: plus, integer addition on two Ints and
coerced concatenation otherwise. -/
def Gval.plus (a b : Gval) : Gval :=
  match coerce a b with
  | .ints x y => .int (x + y)
  | .arrs x y => .arr (x ++ y)
  | .strs x y => .str (x ++ y)
  | .blks x y => .blk (x ++ y)

/-- Modelled from the spec: as_arr, the view of a value as a list of
values (used by zip rows and by base on a digit sequence); sequences of
bytes become Int elements, an Int becomes a singleton. -/
def Gval.as_arr : Gval → List Gval
  | .int n => [.int n]
  | .arr xs => xs
  | .str bs => bs.map (fun b => .int b)
  | .blk bs => bs.map (fun b => .int b)

/-- Modelled from the spec: unwrap_arr, the array payload; any other
kind panics (none). -/
def Gval.unwrap_arr : Gval → Option (List Gval)
  | .arr xs => some xs
  | _ => none

/-- Modelled from the spec: unwrap_int, the integer payload; any other
kind panics (none). -/
def Gval.unwrap_int : Gval → Option Int
  | .int n => some n
  | _ => none

/-- Modelled from the spec: pushing an element into a sequence value,
used by zip to grow each transposed row (byte sequences append the
element's to_gs bytes; on an Int target this is modelled as a no-op). -/
def Gval.pushElem : Gval → Gval → Gval
  | .arr xs, v => .arr (xs ++ [v])
  | .str bs, v => .str (bs ++ v.to_gs)
  | .blk bs, v => .blk (bs ++ v.to_gs)
  | .int n, _ => .int n

/-- Lexicographic comparison of byte lists. -/
def natListCmp : List Nat → List Nat → Ordering
  | [], [] => .eq
  | [], _ :: _ => .lt
  | _ :: _, [] => .gt
  | a :: as_, b :: bs =>
    match compare a b with
    | .eq => natListCmp as_ bs
    | o => o

mutual

/-- Modelled from the spec: the total order on values; within a kind
the natural order (integers, lexicographic sequences), across kinds the
rank order Int < Arr < Str < Blk. -/
def Gval.cmp : Gval → Gval → Ordering
  | .int a, .int b => compare a b
  | .arr a, .arr b => Gval.cmpList a b
  | .str a, .str b => natListCmp a b
  | .blk a, .blk b => natListCmp a b
  | a, b => compare a.rank b.rank

/-- Lexicographic comparison of value lists. -/
def Gval.cmpList : List Gval → List Gval → Ordering
  | [], [] => .eq
  | [], _ :: _ => .lt
  | _ :: _, [] => .gt
  | a :: as_, b :: bs =>
    match Gval.cmp a b with
    | .eq => Gval.cmpList as_ bs
    | o => o

end

/-! ## Sequence utilities (modelled from the spec, util.rs missing) -/

/-- Modelled from the spec: set_subtract keeps the order of a and drops
every element equal to some element of b. -/
def set_subtract {α} [DecidableEq α] (a b : List α) : List α :=
  a.filter (fun x => !(b.contains x))

/-- Modelled from the spec: set_or is a followed by the elements of b
not in a. -/
def set_or {α} [DecidableEq α] (a b : List α) : List α :=
  a ++ b.filter (fun x => !(a.contains x))

/-- Modelled from the spec: set_and keeps the elements of a that appear
in b, in the order of a. -/
def set_and {α} [DecidableEq α] (a b : List α) : List α :=
  a.filter (fun x => b.contains x)

/-- Modelled from the spec: set_xor is set_or minus set_and, order
preserved from set_or. -/
def set_xor {α} [DecidableEq α] (a b : List α) : List α :=
  set_subtract (set_or a b) (set_and a b)

/-- Modelled from the spec: repeat, the concatenation of n copies of the
sequence, empty for non-positive n. -/
def gsRepeat {α} (a : List α) (n : Int) : List α :=
  (List.replicate n.toNat a).flatten

/-- Consecutive non-overlapping chunks of size k (k assumed positive;
the last chunk may be short). -/
def chunksOf {α} (k : Nat) : List α → List (List α)
  | [] => []
  | x :: xs => (x :: xs.take (k - 1)) :: chunksOf k (xs.drop (k - 1))
termination_by l => l.length
decreasing_by
  simp only [List.length_cons]
  exact Nat.lt_succ_of_le (List.length_drop _ _ ▸ Nat.sub_le _ _)

/-- Modelled from the spec: chunk(a,n); for n greater than 0 consecutive
chunks of size n, for negative n the reverse of a chunked by the absolute
value, for n = 0 the sequence unchanged (as a single chunk). -/
def gsChunk {α} (a : List α) (n : Int) : List (List α) :=
  if n = 0 then [a]
  else if 0 < n then chunksOf n.toNat a
  else chunksOf (-n).toNat a.reverse

/-- Elements at indices 0, k, 2k, ... (k assumed positive). -/
def everyKth {α} (k : Nat) : List α → List α
  | [] => []
  | x :: xs => x :: everyKth k (xs.drop (k - 1))
termination_by l => l.length
decreasing_by
  simp only [List.length_cons]
  exact Nat.lt_succ_of_le (List.length_drop _ _ ▸ Nat.sub_le _ _)

/-- Modelled from the spec: every_nth; positive n takes indices
0, n, 2n, ..., negative n reverses first, n = 0 returns the sequence. -/
def every_nth {α} (a : List α) (n : Int) : List α :=
  if n = 0 then a
  else if 0 < n then everyKth n.toNat a
  else everyKth (-n).toNat a.reverse

/-- Fragments of a around non-overlapping occurrences of the separator
sep, scanned left to right (sep assumed non-empty by the guarded call
sites in lib.rs). -/
def splitFrags {α} [DecidableEq α] (sep : List α) : List α → List (List α)
  | [] => [[]]
  | x :: xs =>
    if h : sep ≠ [] ∧ sep.isPrefixOf (x :: xs) then
      [] :: splitFrags sep ((x :: xs).drop sep.length)
    else
      match splitFrags sep xs with
      | [] => [[x]]
      | f :: fs => (x :: f) :: fs
termination_by l => l.length
decreasing_by
  · simp only [List.length_drop, List.length_cons]
    have hs : 1 ≤ sep.length := List.length_pos.mpr h.1
    omega
  · simp [Nat.lt_succ_self]

/-- Modelled from the spec: split(a, sep, clean); splits at
non-overlapping occurrences of sep, removing empty fragments when
clean. -/
def gsSplit {α} [DecidableEq α] (a sep : List α) (clean : Bool) : List (List α) :=
  let frags := splitFrags sep a
  if clean then frags.filter (fun f => !f.isEmpty) else frags

/-- Modelled from the spec: index(a,i) is the element at i modulo the
length (Python-style negative wrap), none on an empty sequence. -/
def gsIndex {α} (a : List α) (i : Int) : Option α :=
  if a.isEmpty then none else a.get? ((i.emod a.length).toNat)

/-- Modelled from the spec: slice(ord, a, i); Less takes the first i
elements (clamped), Greater takes the rest; a negative index counts from
the end. -/
def gsSlice {α} (o : Ordering) (a : List α) (i : Int) : List α :=
  let k : Nat := (if i < 0 then a.length + i else i).toNat
  match o with
  | .lt => a.take k
  | .gt => a.drop k
  | .eq => a

/-- Modelled from the spec: string_index(h,n), the first index of the
needle bytes in the haystack, or -1. -/
def string_index (h n : List Nat) : Int :=
  if n.isPrefixOf h then 0
  else
    match h with
    | [] => -1
    | _ :: t =>
      match string_index t n with
      | -1 => -1
      | k => k + 1
termination_by h.length

/-- Modelled from the spec: coerce::flatten, the byte flattening of a
list of values used when a map over a Str rebuilds a Str: an Int becomes
the byte it denotes (modulo 256, as the scenario of mapping a successor
over a string shows), sequences contribute their bytes, nested arrays
flatten recursively. -/
def gsFlatten : List Gval → List Nat
  | [] => []
  | .int n :: vs => (n % 256).toNat :: gsFlatten vs
  | .arr xs :: vs => gsFlatten xs ++ gsFlatten vs
  | .str bs :: vs => bs ++ gsFlatten vs
  | .blk bs :: vs => bs ++ gsFlatten vs

/-- Modelled from the spec: join(a, sep), the separator join of the
values of a used by the asterisk operator; the running value is built
with the coercing plus. -/
def gsJoin (a : List Gval) (sep : Gval) : Gval :=
  match a with
  | [] => sep.factory
  | x :: xs => xs.foldl (fun acc y => (acc.plus sep).plus y) x

/-- Modelled from the spec: unescape of string-literal bytes;
single-quoted bodies decode only backslash-backslash and
backslash-quote, double-quoted bodies additionally decode the n, t, r, 0
and double-quote escapes (hex and octal escapes are not modelled; no
claim touches them).  Unknown escapes keep both bytes. -/
def unescape (bs : List Nat) (single : Bool) : List Nat :=
  match bs with
  | [] => []
  | 92 :: c :: rest =>
    if single then
      if c = 92 || c = 39 then c :: unescape rest single
      else 92 :: c :: unescape rest single
    else
      if c = 92 || c = 34 then c :: unescape rest single
      else if c = 110 then 10 :: unescape rest single
      else if c = 116 then 9 :: unescape rest single
      else if c = 114 then 13 :: unescape rest single
      else if c = 48 then 0 :: unescape rest single
      else 92 :: c :: unescape rest single
  | b :: rest => b :: unescape rest single

/-! ## Tokens and tokenizer (modelled from the spec, parse.rs missing) -/

/-- The five token shapes delivered by the tokenizer (enum Gtoken of
parse.rs, modelled from the spec): integer literal bytes, string bodies
(outer quotes excluded, escapes still encoded), symbols, blocks (full
outer bytes and inner source; the inner source is what a Blk value
stores, since running a Blk evaluates the bytes between the braces) and
comments. -/
inductive Gtoken where
  | intLiteral : List Nat → Gtoken
  | singleQuotedString : List Nat → Gtoken
  | doubleQuotedString : List Nat → Gtoken
  | symbol : List Nat → Gtoken
  | block : List Nat → List Nat → Gtoken
  | comment : List Nat → Gtoken
deriving DecidableEq, Repr

/-- Modelled from the spec: the lexeme bytes of a token, the name key
used for variable lookup and assignment (a block's lexeme is its full
outer source). -/
def Gtoken.lexeme : Gtoken → List Nat
  | .intLiteral bs => bs
  | .singleQuotedString bs => bs
  | .doubleQuotedString bs => bs
  | .symbol bs => bs
  | .block full _ => full
  | .comment bs => bs

/-- Decimal digit byte. -/
def isDigitB (b : Nat) : Bool := 48 ≤ b && b ≤ 57

/-- Identifier byte: ASCII letter or underscore. -/
def isAlphaB (b : Nat) : Bool := (65 ≤ b && b ≤ 90) || (97 ≤ b && b ≤ 122) || b = 95

/-- Identifier continuation byte. -/
def isIdentB (b : Nat) : Bool := isAlphaB b || isDigitB b

/-- Whitespace byte. -/
def isSpaceB (b : Nat) : Bool := b = 32 || b = 10 || b = 9 || b = 13

/-- Scan a quoted string body up to the closing quote q, keeping escape
pairs encoded; returns the body and the rest after the quote, none when
unterminated (a trailing lone backslash is unterminated). -/
def scanStr (q : Nat) : List Nat → Option (List Nat × List Nat)
  | [] => none
  | b :: rest =>
    if b = 92 then
      match rest with
      | [] => none
      | c :: rest2 => (scanStr q rest2).map fun p => (92 :: c :: p.1, p.2)
    else if b = q then some ([], rest)
    else (scanStr q rest).map fun p => (b :: p.1, p.2)

theorem scanStr_rest_lt (q : Nat) :
    (l : List Nat) → ∀ body r, scanStr q l = some (body, r) → r.length < l.length
  | [] => by simp [scanStr]
  | b :: rest => by
    intro body r h
    rw [scanStr.eq_def] at h
    simp only [] at h
    by_cases h92 : b = 92
    · simp only [h92, if_true] at h
      match rest with
      | [] => simp at h
      | c :: rest2 =>
        simp only [Option.map_eq_some'] at h
        obtain ⟨⟨b2, r2⟩, h1, h2⟩ := h
        cases h2
        have := scanStr_rest_lt q rest2 b2 r2 h1
        simp only [List.length_cons]
        omega
    · simp only [h92, if_false] at h
      by_cases hq : b = q
      · simp only [hq, if_true] at h
        cases h
        simp
      · simp only [hq, if_false, Option.map_eq_some'] at h
        obtain ⟨⟨b2, r2⟩, h1, h2⟩ := h
        cases h2
        have := scanStr_rest_lt q rest b2 r2 h1
        simp only [List.length_cons]
        omega

/-- Scan a block body up to the matching closing brace, tracking nesting
depth; returns the inner bytes and the rest after the brace, none when
unterminated (string contents inside blocks are not treated specially;
no claim depends on that tokenizer corner). -/
def scanBlock : Nat → List Nat → Option (List Nat × List Nat)
  | _, [] => none
  | d, b :: rest =>
    if b = 125 then
      if d = 0 then some ([], rest)
      else (scanBlock (d - 1) rest).map fun p => (125 :: p.1, p.2)
    else if b = 123 then (scanBlock (d + 1) rest).map fun p => (123 :: p.1, p.2)
    else (scanBlock d rest).map fun p => (b :: p.1, p.2)

theorem scanBlock_rest_lt :
    (d : Nat) → (l : List Nat) → ∀ body r, scanBlock d l = some (body, r) → r.length < l.length
  | _, [] => by simp [scanBlock]
  | d, b :: rest => by
    intro body r h
    rw [scanBlock.eq_def] at h
    simp only [] at h
    by_cases hc : b = 125
    · simp only [hc, if_true] at h
      by_cases hd : d = 0
      · simp only [hd, if_true] at h
        cases h
        simp
      · simp only [hd, if_false, Option.map_eq_some'] at h
        obtain ⟨⟨b2, r2⟩, h1, h2⟩ := h
        cases h2
        have := scanBlock_rest_lt (d - 1) rest b2 r2 h1
        simp only [List.length_cons]
        omega
    · simp only [hc, if_false] at h
      by_cases ho : b = 123
      · simp only [ho, if_true, Option.map_eq_some'] at h
        obtain ⟨⟨b2, r2⟩, h1, h2⟩ := h
        cases h2
        have := scanBlock_rest_lt (d + 1) rest b2 r2 h1
        simp only [List.length_cons]
        omega
      · simp only [ho, if_false, Option.map_eq_some'] at h
        obtain ⟨⟨b2, r2⟩, h1, h2⟩ := h
        cases h2
        have := scanBlock_rest_lt d rest b2 r2 h1
        simp only [List.length_cons]
        omega

/-- Natural number denoted by decimal digit bytes. -/
def natOfDigits (bs : List Nat) : Nat :=
  bs.foldl (fun acc b => acc * 10 + (b - 48)) 0

/-- Integer denoted by optionally minus-signed decimal digit bytes
(BigInt::parse_bytes on tokenizer-produced literals). -/
def parseIntBytes (bs : List Nat) : Int :=
  match bs with
  | 45 :: rest => -(natOfDigits rest : Int)
  | _ => (natOfDigits bs : Int)

/-- Modelled from the spec: parse_code, the tokenizer contract of
section 6, fuel-indexed so that it is structurally recursive and
kernel-computable: returns remaining bytes and the ordered tokens.
Integer literals are optionally signed maximal-munch decimal; quoted
strings carry their body with escapes still encoded; blocks carry full
outer bytes and inner source; comments run from a hash to the end of
line; identifier runs and single punctuation bytes become symbols;
whitespace separates tokens.  An unterminated string or block leaves
the remainder unconsumed.  Every step consumes at least one byte, so
the fuel length+1 used by parseCode is never exhausted. -/
def parseCodeF : Nat → List Nat → List Nat × List Gtoken
  | 0, l => (l, [])
  | _ + 1, [] => ([], [])
  | fuel + 1, b :: bs =>
    if isSpaceB b then parseCodeF fuel bs
    else if b = 35 then
      let body := b :: bs.takeWhile (fun c => !(c = 10))
      let rest := bs.dropWhile (fun c => !(c = 10))
      let pr := parseCodeF fuel rest
      (pr.1, .comment body :: pr.2)
    else if isDigitB b then
      let body := b :: bs.takeWhile isDigitB
      let rest := bs.dropWhile isDigitB
      let pr := parseCodeF fuel rest
      (pr.1, .intLiteral body :: pr.2)
    else if b = 45 && (bs.head?.getD 0 |> isDigitB) && !bs.isEmpty then
      let body := b :: bs.takeWhile isDigitB
      let rest := bs.dropWhile isDigitB
      let pr := parseCodeF fuel rest
      (pr.1, .intLiteral body :: pr.2)
    else if isAlphaB b then
      let body := b :: bs.takeWhile isIdentB
      let rest := bs.dropWhile isIdentB
      let pr := parseCodeF fuel rest
      (pr.1, .symbol body :: pr.2)
    else if b = 39 then
      match scanStr 39 bs with
      | none => (b :: bs, [])
      | some (body, rest) =>
        let pr := parseCodeF fuel rest
        (pr.1, .singleQuotedString body :: pr.2)
    else if b = 34 then
      match scanStr 34 bs with
      | none => (b :: bs, [])
      | some (body, rest) =>
        let pr := parseCodeF fuel rest
        (pr.1, .doubleQuotedString body :: pr.2)
    else if b = 123 then
      match scanBlock 0 bs with
      | none => (b :: bs, [])
      | some (inner, rest) =>
        let pr := parseCodeF fuel rest
        (pr.1, .block (123 :: (inner ++ [125])) inner :: pr.2)
    else
      let pr := parseCodeF fuel bs
      (pr.1, .symbol [b] :: pr.2)

/-- The tokenizer entry: one unit of fuel per consumed byte plus one
always suffices. -/
def parseCode (l : List Nat) : List Nat × List Gtoken :=
  parseCodeF (l.length + 1) l

/-! ## The sandboxed evaluator state (struct Gs of src/lib.rs) -/

/-- The evaluator state of src/lib.rs: value stack (top at head), the
variable map (association list), the bracket stack lb (newest at head),
the 64-bit LCG state, the stable flag, the output buffer bytes and the
loop cap max_loops. -/
structure GsState where
  stack : List Gval
  vars : List (List Nat × Gval)
  lb : List Nat
  rngState : Nat
  stable : Bool
  output : List Nat
  maxLoops : Nat
deriving Repr, DecidableEq

/-- Gs::new of src/lib.rs: empty stack, no bindings, empty bracket
stack, RNG seed 123456789, stable, empty output, max_loops u64::MAX. -/
def Gs.new : GsState :=
  { stack := [], vars := [], lb := [], rngState := 123456789,
    stable := true, output := [], maxLoops := 2 ^ 64 - 1 }

/-- Gs::push. -/
def Gs.push (st : GsState) (v : Gval) : GsState :=
  { st with stack := v :: st.stack }

/-- Gs::print of src/lib.rs appends bytes to the output buffer (the
String::from_utf8_lossy conversion is modelled as the raw byte append;
no claim depends on the lossy re-encoding of invalid UTF-8). -/
def Gs.print (st : GsState) (bs : List Nat) : GsState :=
  { st with output := st.output ++ bs }

/-- The bracket-stack walk performed by Gs::pop of src/lib.rs before a
value is removed: starting from the newest entry, while the entry is at
least the current stack length and fewer than max_loops steps were
taken, decrement the entry (floored at 0) and move to the next older
entry; the walk stops at the first entry below the stack length. -/
def popWalk (len : Nat) : Nat → List Nat → List Nat
  | _, [] => []
  | 0, lb => lb
  | budget + 1, e :: rest =>
    if len ≤ e then (e - 1) :: popWalk len budget rest else e :: rest

/-- Gs::pop of src/lib.rs: walk the bracket stack against the current
stack length (capped by max_loops), then remove the top of the stack;
an underflow yields none and clears the stable flag. -/
def Gs.pop (st : GsState) : Option Gval × GsState :=
  let lb2 := popWalk st.stack.length st.maxLoops st.lb
  match st.stack with
  | [] => (none, { st with lb := lb2, stable := false })
  | v :: s => (some v, { st with lb := lb2, stack := s })

/-- The pop-or-empty-array idiom pop().or(Some(Arr(vec![]))).unwrap()
used by the binary operators of src/lib.rs. -/
def Gs.popOr (st : GsState) : Gval × GsState :=
  match Gs.pop st with
  | (none, st1) => (Gval.arr [], st1)
  | (some v, st1) => (v, st1)

/-- Lookup in the variable association list (HashMap::get). -/
def lookupVar : List (List Nat × Gval) → List Nat → Option Gval
  | [], _ => none
  | (k, v) :: rest, name => if k = name then some v else lookupVar rest name

/-- The assignment step of Gs::run of src/lib.rs for a colon token: bind
the following token's lexeme to a clone of the top of the stack, leaving
the stack unchanged; a no-op on an empty stack. -/
def Gs.assign (st : GsState) (name : List Nat) : GsState :=
  match st.stack with
  | [] => st
  | t :: _ => { st with vars := (name, t) :: st.vars }

/-- The type of the recursive evaluation entry Gs::run, abstracted so
that each operator is defined by structural recursion and the knot is
tied by the fuel-indexed runF. -/
abbrev Runner := GsState → List Nat → Option GsState

/-- Gs::go of src/lib.rs: execute a block value by running its bytes,
push any other value. -/
def goWith (run : Runner) (v : Gval) (st : GsState) : Option GsState :=
  match v with
  | .blk s => run st s
  | _ => some (Gs.push st v)

/-! ## Operators of src/lib.rs -/

/-- The dup operator (dot): pop, then push the value twice; on underflow
push two empty arrays. -/
def Gs.dup (st : GsState) : GsState :=
  match Gs.pop st with
  | (some a, st1) => Gs.push (Gs.push st1 a) a
  | (none, st1) => Gs.push (Gs.push st1 (.arr [])) (.arr [])

/-- Gs::tilde: bitwise NOT on Int, splat an Arr onto the stack, run
Str/Blk bytes as code; an empty array on underflow. -/
def Gs.tilde (run : Runner) (st : GsState) : Option GsState :=
  match Gs.pop st with
  | (some (.int n), st1) => some (Gs.push st1 (.int (-n - 1)))
  | (some (.arr vs), st1) => some { st1 with stack := vs.reverse ++ st1.stack }
  | (some (.str bs), st1) => run st1 bs
  | (some (.blk bs), st1) => run st1 bs
  | (none, st1) => some (Gs.push st1 (.arr []))

/-- Gs::backtick: push the inspect rendering of the popped value. -/
def Gs.backtick (st : GsState) : GsState :=
  match Gs.pop st with
  | (some v, st1) => Gs.push st1 (.str v.inspect)
  | (none, st1) => Gs.push st1 (.str [])

/-- Gs::bang: push the boolean Int of the popped value's falseyness. -/
def Gs.bang (st : GsState) : GsState :=
  match Gs.pop st with
  | (some f, st1) => Gs.push st1 (Gval.ofBool f.falsey)
  | (none, st1) => Gs.push st1 (Gval.ofBool true)

/-- Gs::at_sign: rotate the top three values (a b c becomes b c a), with
empty arrays standing in for missing operands. -/
def Gs.at_sign (st : GsState) : GsState :=
  match Gs.pop st with
  | (some c, st1) =>
    match Gs.pop st1 with
    | (some b, st2) =>
      match Gs.pop st2 with
      | (some a, st3) => Gs.push (Gs.push (Gs.push st3 b) c) a
      | (none, st3) => Gs.push (Gs.push (Gs.push st3 b) c) (.arr [])
    | (none, st2) => Gs.push (Gs.push (Gs.push st2 (.arr [])) c) (.arr [])
  | (none, st1) =>
    Gs.push (Gs.push (Gs.push st1 (.arr [])) (.arr [])) (.arr [])

/-- Gs::plus: coercing concatenation or integer addition. -/
def Gs.plusOp (st : GsState) : GsState :=
  let (b, st1) := Gs.popOr st
  let (a, st2) := Gs.popOr st1
  Gs.push st2 (a.plus b)

/-- Gs::minus: integer subtraction or coerced set subtraction. -/
def Gs.minus (st : GsState) : GsState :=
  let (b, st1) := Gs.popOr st
  let (a, st2) := Gs.popOr st1
  match coerce a b with
  | .ints x y => Gs.push st2 (.int (x - y))
  | .arrs x y => Gs.push st2 (.arr (set_subtract x y))
  | .strs x y => Gs.push st2 (.str (set_subtract x y))
  | .blks x y => Gs.push st2 (.blk (set_subtract x y))

/-- Gs::vertical_bar: bitwise or coerced set union. -/
def Gs.vertical_bar (st : GsState) : GsState :=
  let (b, st1) := Gs.popOr st
  let (a, st2) := Gs.popOr st1
  match coerce a b with
  | .ints x y => Gs.push st2 (.int (Int.lor x y))
  | .arrs x y => Gs.push st2 (.arr (set_or x y))
  | .strs x y => Gs.push st2 (.str (set_or x y))
  | .blks x y => Gs.push st2 (.blk (set_or x y))

/-- Gs::ampersand: bitwise and or coerced set intersection. -/
def Gs.ampersand (st : GsState) : GsState :=
  let (b, st1) := Gs.popOr st
  let (a, st2) := Gs.popOr st1
  match coerce a b with
  | .ints x y => Gs.push st2 (.int (Int.land x y))
  | .arrs x y => Gs.push st2 (.arr (set_and x y))
  | .strs x y => Gs.push st2 (.str (set_and x y))
  | .blks x y => Gs.push st2 (.blk (set_and x y))

/-- Gs::caret: bitwise xor or coerced set symmetric difference. -/
def Gs.caret (st : GsState) : GsState :=
  let (b, st1) := Gs.popOr st
  let (a, st2) := Gs.popOr st1
  match coerce a b with
  | .ints x y => Gs.push st2 (.int (Int.xor x y))
  | .arrs x y => Gs.push st2 (.arr (set_xor x y))
  | .strs x y => Gs.push st2 (.str (set_xor x y))
  | .blks x y => Gs.push st2 (.blk (set_xor x y))

/-- Gs::lteqgt, the comparison dispatch for the less, equal and greater
symbols: indexing on (Equal, Int, Seq), slicing on (Less or Greater,
Int, Seq), and an ordering comparison otherwise. -/
def Gs.lteqgt (o : Ordering) (st : GsState) : GsState :=
  let (b, st1) := Gs.popOr st
  let (a, st2) := Gs.popOr st1
  match o, a, b with
  | .eq, .int i, .arr h | .eq, .arr h, .int i =>
    match gsIndex h i with
    | some x => Gs.push st2 x
    | none => st2
  | .eq, .int i, .str h | .eq, .str h, .int i
  | .eq, .int i, .blk h | .eq, .blk h, .int i =>
    match gsIndex h i with
    | some x => Gs.push st2 (.int x)
    | none => st2
  | o2, .int i, .arr h | o2, .arr h, .int i => Gs.push st2 (.arr (gsSlice o2 h i))
  | o2, .int i, .str h | o2, .str h, .int i => Gs.push st2 (.str (gsSlice o2 h i))
  | o2, .int i, .blk h | o2, .blk h, .int i => Gs.push st2 (.blk (gsSlice o2 h i))
  | o2, x, y => Gs.push st2 (Gval.ofBool (Gval.cmp x y == o2))

/-- Gs::left_paren: decrement an Int, or uncons the head of a sequence
pushing the remainder then the head; on underflow push Int -1. -/
def Gs.left_paren (st : GsState) : GsState :=
  match Gs.pop st with
  | (some (.int n), st1) => Gs.push st1 (.int (n - 1))
  | (some (.arr a), st1) =>
    match a with
    | [] => st1
    | x :: xs => Gs.push (Gs.push st1 (.arr xs)) x
  | (some (.str a), st1) =>
    match a with
    | [] => st1
    | x :: xs => Gs.push (Gs.push st1 (.str xs)) (.int x)
  | (some (.blk a), st1) =>
    match a with
    | [] => st1
    | x :: xs => Gs.push (Gs.push st1 (.blk xs)) (.int x)
  | (none, st1) => Gs.push st1 (.int (0 - 1))

/-- Gs::right_paren: increment an Int, or split off the last element of
a sequence pushing the remainder then the element; on underflow push
Int 1. -/
def Gs.right_paren (st : GsState) : GsState :=
  match Gs.pop st with
  | (some (.int n), st1) => Gs.push st1 (.int (n + 1))
  | (some (.arr a), st1) =>
    match a.getLast? with
    | none => st1
    | some l => Gs.push (Gs.push st1 (.arr a.dropLast)) l
  | (some (.str a), st1) =>
    match a.getLast? with
    | none => st1
    | some l => Gs.push (Gs.push st1 (.str a.dropLast)) (.int l)
  | (some (.blk a), st1) =>
    match a.getLast? with
    | none => st1
    | some l => Gs.push (Gs.push st1 (.blk a.dropLast)) (.int l)
  | (none, st1) => Gs.push st1 (.int (0 + 1))

/-- Gs::rng: the linear congruential step state * 1664525 + 1013904223
modulo 2^64, returning the updated state as the generated value. -/
def Gs.rngNext (st : GsState) : Nat × GsState :=
  let m := (st.rngState * 1664525 + 1013904223) % 2 ^ 64
  (m, { st with rngState := m })

/-- Gs::rand: on a positive Int n, push the next RNG output modulo n;
otherwise push Int 0 (the RNG state is only advanced in the positive-Int
case). -/
def Gs.rand (st : GsState) : GsState :=
  match Gs.pop st with
  | (some (.int n), st1) =>
    if 0 < n then
      let (m, st2) := Gs.rngNext st1
      Gs.push st2 (.int ((m : Int) % n))
    else Gs.push st1 (.int 0)
  | (_, st1) => Gs.push st1 (.int 0)

/-! ## Iteration helpers of src/lib.rs (fold, each, map, select, find,
sort_by) and the capped loops; each capped loop also returns the final
value of its loops counter. -/

/-- Gs::fold: push the first element, then push each further element and
run the code between. -/
def foldRest (run : Runner) (code : List Nat) : List Gval → GsState → Option GsState
  | [], st => some st
  | v :: vs, st => (run (Gs.push st v) code).bind (foldRest run code vs)

/-- Entry of Gs::fold (the i = 0 element is pushed without running). -/
def foldWith (run : Runner) (code : List Nat) : List Gval → GsState → Option GsState
  | [], st => some st
  | v :: vs, st => foldRest run code vs (Gs.push st v)

/-- Gs::each: push each element and run the code. -/
def eachWith (run : Runner) (code : List Nat) : List Gval → GsState → Option GsState
  | [], st => some st
  | v :: vs, st => (run (Gs.push st v) code).bind (eachWith run code vs)

/-- Gs::gs_map: for each element, record the stack length, push and run,
then drain everything above the recorded length into the result (a drain
below the recorded length panics, as Vec::drain does). -/
def gsMapWith (run : Runner) (code : List Nat) : List Gval → GsState → Option (List Gval × GsState)
  | [], st => some ([], st)
  | v :: vs, st =>
    let lbLen := st.stack.length
    (run (Gs.push st v) code).bind fun st1 =>
      if st1.stack.length < lbLen then none
      else
        let taken := (st1.stack.take (st1.stack.length - lbLen)).reverse
        let st2 := { st1 with stack := st1.stack.drop (st1.stack.length - lbLen) }
        (gsMapWith run code vs st2).map fun p => (taken ++ p.1, p.2)

/-- Gs::select: keep the elements for which running the code pops a
truthy value (an underflowing pop skips the element). -/
def selectWith {α} (run : Runner) (code : List Nat) (inj : α → Gval) :
    List α → GsState → Option (List α × GsState)
  | [], st => some ([], st)
  | v :: vs, st =>
    (run (Gs.push st (inj v)) code).bind fun st1 =>
      match Gs.pop st1 with
      | (some t, st2) =>
        (selectWith run code inj vs st2).map fun p =>
          (if t.truthy then v :: p.1 else p.1, p.2)
      | (none, st2) => (selectWith run code inj vs st2).map fun p => (p.1, p.2)

/-- Gs::find: push each element and run the code; at the first truthy
popped result push the element back and stop. -/
def findWith {α} (run : Runner) (code : List Nat) (inj : α → Gval) :
    List α → GsState → Option GsState
  | [], st => some st
  | v :: vs, st =>
    (run (Gs.push st (inj v)) code).bind fun st1 =>
      match Gs.pop st1 with
      | (some t, st2) =>
        if t.truthy then some (Gs.push st2 (inj v))
        else findWith run code inj vs st2
      | (none, st2) => findWith run code inj vs st2

/-- The key-computation pass of Gs::sort_by: push each element, run the
code, pop the key (an empty array on underflow). -/
def sortByKeys {α} (run : Runner) (code : List Nat) (inj : α → Gval) :
    List α → GsState → Option (List (Gval × α) × GsState)
  | [], st => some ([], st)
  | v :: vs, st =>
    (run (Gs.push st (inj v)) code).bind fun st1 =>
      let (a, st2) := Gs.popOr st1
      (sortByKeys run code inj vs st2).map fun p => ((a, v) :: p.1, p.2)

/-- Gs::sort_by: compute keys, stably sort pairs by the key order, and
return the elements. -/
def Gs.sort_by {α} (run : Runner) (code : List Nat) (inj : α → Gval)
    (vs : List α) (st : GsState) : Option (List α × GsState) :=
  (sortByKeys run code inj vs st).map fun p =>
    ((p.1.mergeSort fun x y => Gval.cmp x.1 y.1 ≠ .gt).map (·.2), p.2)

/-- The times loop of Gs::asterisk on (Int, Blk): run the block while
the counter is positive and fewer than max_loops iterations were
performed; returns the final loops counter. -/
def timesLoop (run : Runner) (f : List Nat) : Int → Nat → GsState → Option (GsState × Nat)
  | _, 0, st => some (st, 0)
  | n, budget + 1, st =>
    if 0 < n then
      (run st f).bind fun st1 =>
        (timesLoop run f (n - 1) budget st1).map fun p => (p.1, p.2 + 1)
    else some (st, 0)

/-- The range loop of Gs::comma on an Int: collect i = 0, 1, ... while
i is below n and fewer than max_loops iterations were performed. -/
def commaRangeLoop (n : Int) : Nat → Int → List Gval
  | 0, _ => []
  | budget + 1, i => if i < n then .int i :: commaRangeLoop n budget (i + 1) else []

/-- The loop of Gs::do_loop: execute the value, pop, stop on a falsey or
missing result or after max_loops iterations; returns the loops
counter. -/
def doLoopGo (run : Runner) (a : Gval) : Nat → GsState → Option (GsState × Nat)
  | 0, st => some (st, 0)
  | budget + 1, st =>
    (goWith run a st).bind fun st1 =>
      match Gs.pop st1 with
      | (some f, st2) =>
        if f.falsey then some (st2, 1)
        else (doLoopGo run a budget st2).map fun p => (p.1, p.2 + 1)
      | (none, st2) => some (st2, 1)

/-- The loop of Gs::while_loop: execute the condition a, pop the flag,
break when its falseyness equals the which parameter (a missing flag
breaks only an until loop), else execute the body b and repeat, for at
most max_loops iterations; returns the loops counter. -/
def whileLoopGo (run : Runner) (which : Bool) (a b : Gval) :
    Nat → GsState → Option (GsState × Nat)
  | 0, st => some (st, 0)
  | budget + 1, st =>
    (goWith run a st).bind fun st1 =>
      match Gs.pop st1 with
      | (some f, st2) =>
        if f.falsey == which then some (st2, 1)
        else
          (goWith run b st2).bind fun st3 =>
            (whileLoopGo run which a b budget st3).map fun p => (p.1, p.2 + 1)
      | (none, st2) =>
        if !which then some (st2, 1)
        else
          (goWith run b st2).bind fun st3 =>
            (whileLoopGo run which a b budget st3).map fun p => (p.1, p.2 + 1)

/-- The unfold loop of Gs::slash on (Blk, Blk): duplicate the top (an
empty array on an empty stack), run the condition, pop the flag and stop
if falsey or missing; otherwise record the top, run the step, and
repeat, for at most max_loops iterations; returns the collected values
and the loops counter. -/
def unfoldLoop (run : Runner) (cond step : List Nat) :
    Nat → GsState → Option (GsState × List Gval × Nat)
  | 0, st => some (st, [], 0)
  | budget + 1, st =>
    let st1 := match st.stack.head? with
               | some t => Gs.push st t
               | none => Gs.push st (.arr [])
    (run st1 cond).bind fun st2 =>
      match Gs.pop st2 with
      | (none, st3) => some (st3, [], 1)
      | (some f, st3) =>
        if f.falsey then some (st3, [], 1)
        else
          let v := match st3.stack.head? with
                   | some a => a
                   | none => .arr []
          (run st3 step).bind fun st4 =>
            (unfoldLoop run cond step budget st4).map fun p =>
              (p.1, v :: p.2.1, p.2.2 + 1)

/-- The padding loop inside Gs::zip: append blanks while the transpose
has fewer than target rows and fewer than max_loops iterations were
performed. -/
def zipPadLoop (blank : Gval) (target : Nat) : Nat → List Gval → List Gval
  | 0, r => r
  | budget + 1, r =>
    if r.length < target then zipPadLoop blank target budget (r ++ [blank]) else r

/-- The digit-extraction loop of Gs::base on an Int: divide by the base
while the value is nonzero and fewer than max_loops iterations were
performed, collecting floor remainders in extraction order; division by
a zero base panics. -/
def baseDigitsLoop (b : Int) : Nat → Int → Option (List Gval)
  | 0, _ => some []
  | budget + 1, i =>
    if i = 0 then some []
    else if b = 0 then none
    else (baseDigitsLoop b budget (Int.fdiv i b)).map fun ds => .int (Int.fmod i b) :: ds

/-! ## The remaining operators of src/lib.rs -/

/-- Gs::dollar: on an Int n, copy a stack element (n from the top when
0 <= n < len, or element -n-2 from the bottom when n < -1); on a
sequence, sort it; on a Blk, pop again and sort that sequence by the
block-computed key (an Int is pushed back unchanged). -/
def Gs.dollar (run : Runner) (st : GsState) : Option GsState :=
  match Gs.pop st with
  | (some (.int n), st1) =>
    let len : Int := st1.stack.length
    if n < -1 then
      let i := (-n - 2).toNat
      if i < st1.stack.length then
        some (Gs.push st1 ((st1.stack.get? (st1.stack.length - 1 - i)).getD (.arr [])))
      else some st1
    else if 0 ≤ n ∧ n < len then
      let i := (len - 1 - n).toNat
      some (Gs.push st1 ((st1.stack.get? (st1.stack.length - 1 - i)).getD (.arr [])))
    else some st1
  | (some (.arr vs), st1) =>
    some (Gs.push st1 (.arr (vs.mergeSort fun x y => Gval.cmp x y ≠ .gt)))
  | (some (.str bs), st1) =>
    some (Gs.push st1 (.str (bs.mergeSort fun x y => x ≤ y)))
  | (some (.blk code), st1) =>
    match Gs.pop st1 with
    | (some (.int n), st2) => some (Gs.push st2 (.int n))
    | (some (.arr vs), st2) =>
      (Gs.sort_by run code id vs st2).map fun p => Gs.push p.2 (.arr p.1)
    | (some (.str vs), st2) =>
      (Gs.sort_by run code (fun b : Nat => Gval.int (b : Int)) vs st2).map fun p => Gs.push p.2 (.str p.1)
    | (some (.blk vs), st2) =>
      (Gs.sort_by run code (fun b : Nat => Gval.int (b : Int)) vs st2).map fun p => Gs.push p.2 (.blk p.1)
    | (none, st2) => some (Gs.push st2 (.arr []))
  | (none, st1) => some (Gs.push st1 (.arr []))

/-- Gs::asterisk: multiply, join with separator, fold, repeat, or the
capped times loop, dispatched on the operand kinds. -/
def Gs.asterisk (run : Runner) (st : GsState) : Option GsState :=
  let (b, st1) := Gs.popOr st
  let (a, st2) := Gs.popOr st1
  match a, b with
  | .int x, .int y => some (Gs.push st2 (.int (x * y)))
  | .arr x, .arr sep => some (Gs.push st2 (gsJoin x (.arr sep)))
  | .arr x, .str sep => some (Gs.push st2 (gsJoin x (.str sep)))
  | .str sep, .arr x => some (Gs.push st2 (gsJoin x (.str sep)))
  | .str x, .str sep =>
    some (Gs.push st2 (gsJoin (x.map fun c => Gval.str [c]) (.str sep)))
  | .blk code, .blk x => foldWith run code (x.map fun c => Gval.int c) st2
  | .str x, .blk code => foldWith run code (x.map fun c => Gval.int c) st2
  | .blk code, .str x => foldWith run code (x.map fun c => Gval.int c) st2
  | .arr x, .blk code => foldWith run code x st2
  | .blk code, .arr x => foldWith run code x st2
  | .int n, .arr x => some (Gs.push st2 (.arr (gsRepeat x n)))
  | .arr x, .int n => some (Gs.push st2 (.arr (gsRepeat x n)))
  | .int n, .str x => some (Gs.push st2 (.str (gsRepeat x n)))
  | .str x, .int n => some (Gs.push st2 (.str (gsRepeat x n)))
  | .int n, .blk f => (timesLoop run f n st2.maxLoops st2).map (·.1)
  | .blk f, .int n => (timesLoop run f n st2.maxLoops st2).map (·.1)

/-- Gs::slash: floor division (zero divisor gives 0), split by
separator, each, chunk, the capped unfold loop, or each on a singleton,
dispatched on the operand kinds. -/
def Gs.slash (run : Runner) (st : GsState) : Option GsState :=
  let (b, st1) := Gs.popOr st
  let (a, st2) := Gs.popOr st1
  match a, b with
  | .int x, .int y =>
    if y = 0 then some (Gs.push st2 (.int 0))
    else some (Gs.push st2 (.int (Int.fdiv x y)))
  | .arr x, .arr sep =>
    if sep.length = 0 then some (Gs.push st2 (.arr x))
    else some (Gs.push st2 (.arr ((gsSplit x sep false).map .arr)))
  | .str x, .str sep =>
    if sep.length = 0 then some (Gs.push st2 (.str x))
    else some (Gs.push st2 (.arr ((gsSplit x sep false).map .str)))
  | .arr x, .str sep =>
    if sep.length = 0 then some (Gs.push st2 (.arr x))
    else some (Gs.push st2 (.arr ((gsSplit x (sep.map fun c => Gval.int c) false).map .arr)))
  | .str sep, .arr x =>
    if sep.length = 0 then some (Gs.push st2 (.arr x))
    else some (Gs.push st2 (.arr ((gsSplit x (sep.map fun c => Gval.int c) false).map .arr)))
  | .str x, .blk code => eachWith run code (x.map fun c => Gval.int c) st2
  | .blk code, .str x => eachWith run code (x.map fun c => Gval.int c) st2
  | .arr x, .blk code => eachWith run code x st2
  | .blk code, .arr x => eachWith run code x st2
  | .int n, .arr x =>
    if n = 0 then some (Gs.push st2 (.arr x))
    else some (Gs.push st2 (.arr ((gsChunk x n).map .arr)))
  | .arr x, .int n =>
    if n = 0 then some (Gs.push st2 (.arr x))
    else some (Gs.push st2 (.arr ((gsChunk x n).map .arr)))
  | .int n, .str x =>
    if n = 0 then some (Gs.push st2 (.str x))
    else some (Gs.push st2 (.arr ((gsChunk x n).map .str)))
  | .str x, .int n =>
    if n = 0 then some (Gs.push st2 (.str x))
    else some (Gs.push st2 (.arr ((gsChunk x n).map .str)))
  | .blk cond, .blk step =>
    (unfoldLoop run cond step st2.maxLoops st2).bind fun p =>
      let (_, st3) := Gs.pop p.1
      some (Gs.push st3 (.arr p.2.1))
  | .blk code, .int n => eachWith run code [.int n] st2
  | .int n, .blk code => eachWith run code [.int n] st2

/-- Gs::percent: floor modulo (zero divisor gives 0), clean split, map,
every-nth, or map on a singleton, dispatched on the operand kinds. -/
def Gs.percent (run : Runner) (st : GsState) : Option GsState :=
  let (b, st1) := Gs.popOr st
  let (a, st2) := Gs.popOr st1
  match a, b with
  | .int x, .int y =>
    if y = 0 then some (Gs.push st2 (.int 0))
    else some (Gs.push st2 (.int (Int.fmod x y)))
  | .arr x, .arr sep =>
    if sep.length = 0 then some (Gs.push st2 (.arr x))
    else some (Gs.push st2 (.arr ((gsSplit x sep true).map .arr)))
  | .str x, .str sep =>
    if sep.length = 0 then some (Gs.push st2 (.str x))
    else some (Gs.push st2 (.arr ((gsSplit x sep true).map .str)))
  | .arr x, .str sep =>
    if sep.length = 0 then some (Gs.push st2 (.arr x))
    else some (Gs.push st2 (.arr ((gsSplit x (sep.map fun c => Gval.int c) true).map .arr)))
  | .str sep, .arr x =>
    if sep.length = 0 then some (Gs.push st2 (.arr x))
    else some (Gs.push st2 (.arr ((gsSplit x (sep.map fun c => Gval.int c) true).map .arr)))
  | .arr x, .blk code =>
    (gsMapWith run code x st2).map fun p => Gs.push p.2 (.arr p.1)
  | .blk code, .arr x =>
    (gsMapWith run code x st2).map fun p => Gs.push p.2 (.arr p.1)
  | .str x, .blk code =>
    (gsMapWith run code (x.map fun c => Gval.int c) st2).map fun p =>
      Gs.push p.2 (.str (gsFlatten p.1))
  | .blk code, .str x =>
    (gsMapWith run code (x.map fun c => Gval.int c) st2).map fun p =>
      Gs.push p.2 (.str (gsFlatten p.1))
  | .int n, .arr x =>
    if n = 0 then some (Gs.push st2 (.arr x))
    else some (Gs.push st2 (.arr (every_nth x n)))
  | .arr x, .int n =>
    if n = 0 then some (Gs.push st2 (.arr x))
    else some (Gs.push st2 (.arr (every_nth x n)))
  | .int n, .str x =>
    if n = 0 then some (Gs.push st2 (.str x))
    else some (Gs.push st2 (.str (every_nth x n)))
  | .str x, .int n =>
    if n = 0 then some (Gs.push st2 (.str x))
    else some (Gs.push st2 (.str (every_nth x n)))
  | .int n, .blk code =>
    (gsMapWith run code [.int n] st2).map fun p => Gs.push p.2 (.arr p.1)
  | .blk code, .int n =>
    (gsMapWith run code [.int n] st2).map fun p => Gs.push p.2 (.arr p.1)
  | .blk ca, .blk cb =>
    (gsMapWith run cb [.blk ca] st2).map fun p => Gs.push p.2 (.arr p.1)

/-- Gs::comma: the capped range on an Int, the length of a sequence, or
select with a popped block. -/
def Gs.comma (run : Runner) (st : GsState) : Option GsState :=
  match Gs.pop st with
  | (some (.int n), st1) =>
    some (Gs.push st1 (.arr (commaRangeLoop n st1.maxLoops 0)))
  | (some (.arr a), st1) => some (Gs.push st1 (.int a.length))
  | (some (.str a), st1) => some (Gs.push st1 (.int a.length))
  | (some (.blk code), st1) =>
    match Gs.pop st1 with
    | (some (.int n), st2) =>
      (selectWith run code id [Gval.int n] st2).map fun p => Gs.push p.2 (.arr p.1)
    | (some (.arr a), st2) =>
      (selectWith run code id a st2).map fun p => Gs.push p.2 (.arr p.1)
    | (some (.str a), st2) =>
      (selectWith run code (fun c : Nat => Gval.int (c : Int)) a st2).map fun p => Gs.push p.2 (.str p.1)
    | (some (.blk a), st2) =>
      (selectWith run code (fun c : Nat => Gval.int (c : Int)) a st2).map fun p => Gs.push p.2 (.blk p.1)
    | (none, st2) => some (Gs.push st2 (.arr []))
  | (none, st1) => some (Gs.push st1 (.arr []))

/-- BigInt::to_u32: the exponent operand fits an unsigned 32-bit
integer. -/
def toU32 (b : Int) : Option Nat :=
  if 0 ≤ b ∧ b < 2 ^ 32 then some b.toNat else none

/-- BigInt::to_i32: the base operand fits a signed 32-bit integer. -/
def toI32 (a : Int) : Option Int :=
  if -(2 ^ 31) ≤ a ∧ a < 2 ^ 31 then some a else none

/-- The floating guard of Gs::question of src/lib.rs, the comparison
f64::log(f64::from(a32), 10.0) * f64::from(e) < 100.0 on the IEEE
doubles: the log of a negative value is NaN so the comparison is false;
the log of zero is negative infinity, so the product is below 100 for a
positive exponent and NaN for a zero one; for a positive base the real
inequality log10(a) * e < 100 is equivalent to a^e < 10^100, which is
how the finite case is modelled (double rounding at the exact decision
boundary is not modelled; no claim rests on a boundary case). -/
def powGuardLt (a32 : Int) (e : Nat) : Bool :=
  if a32 < 0 then false
  else if a32 = 0 then decide (e ≠ 0)
  else decide (a32.toNat ^ e < 10 ^ 100)

/-- The (Int, Int) power branch of Gs::question of src/lib.rs: an
exponent outside u32 gives 0; otherwise the base is converted with
to_i32().unwrap(), panicking when it does not fit; the guarded power
returns the exact power below the guard and the base unchanged above
it. -/
def questionIntInt (a b : Int) : Option Gval :=
  match toU32 b with
  | some e =>
    match toI32 a with
    | none => none
    | some a32 => some (.int (if powGuardLt a32 e then a ^ e else a))
  | none => some (.int 0)

/-- Index-of search of a needle value in a list of values: the first
position or -1. -/
def positionIdx (h : List Gval) (n : Gval) : Int :=
  match h.findIdx? (fun x => x = n) with
  | some i => i
  | none => -1

/-- Index-of search of a byte in a byte string: the first position or
-1; a needle outside the byte range gives -1 (BigInt::to_u8). -/
def bytePositionIdx (h : List Nat) (n : Int) : Int :=
  if 0 ≤ n ∧ n < 256 then
    match h.findIdx? (fun x => x = n.toNat) with
    | some i => i
    | none => -1
  else -1

/-- Gs::question: guarded power, index-of, substring index, or find,
dispatched on the operand kinds. -/
def Gs.question (run : Runner) (st : GsState) : Option GsState :=
  let (b, st1) := Gs.popOr st
  let (a, st2) := Gs.popOr st1
  match a, b with
  | .int x, .int y => (questionIntInt x y).map (Gs.push st2)
  | .arr h, .int m => some (Gs.push st2 (.int (positionIdx h (.int m))))
  | .int m, .arr h => some (Gs.push st2 (.int (positionIdx h (.int m))))
  | .arr h, .str s2 => some (Gs.push st2 (.int (positionIdx h (.str s2))))
  | .str s2, .arr h => some (Gs.push st2 (.int (positionIdx h (.str s2))))
  | .arr h, .arr n2 => some (Gs.push st2 (.int (positionIdx h (.arr n2))))
  | .str h, .int m => some (Gs.push st2 (.int (bytePositionIdx h m)))
  | .int m, .str h => some (Gs.push st2 (.int (bytePositionIdx h m)))
  | .str h, .str n2 => some (Gs.push st2 (.int (string_index h n2)))
  | .int n2, .blk code => findWith run code id [Gval.int n2] st2
  | .blk code, .int n2 => findWith run code id [Gval.int n2] st2
  | .blk code, .blk x => findWith run code (fun c : Nat => Gval.int (c : Int)) x st2
  | .blk code, .str x => findWith run code (fun c : Nat => Gval.int (c : Int)) x st2
  | .str x, .blk code => findWith run code (fun c : Nat => Gval.int (c : Int)) x st2
  | .blk code, .arr x => findWith run code id x st2
  | .arr x, .blk code => findWith run code id x st2

/-- Gs::do_loop: pop a value and run the capped do loop on it. -/
def Gs.do_loop (run : Runner) (st : GsState) : Option GsState :=
  match Gs.pop st with
  | (some a, st1) => (doLoopGo run a st1.maxLoops st1).map (·.1)
  | (none, st1) => some st1

/-- Gs::while_loop: pop the body then the condition and run the capped
while (which true) or until (which false) loop. -/
def Gs.while_loop (run : Runner) (which : Bool) (st : GsState) : Option GsState :=
  let (b, st1) := Gs.popOr st
  let (a, st2) := Gs.popOr st1
  (whileLoopGo run which a b st2.maxLoops st2).map (·.1)

/-- One row pass inside Gs::zip: for each element at column y, pad the
transpose to y + 1 rows (capped by max_loops) and append the element to
row y; an out-of-range row index after a capped pad panics. -/
def zipRow (maxL : Nat) (blank : Gval) : List Gval → Nat → List Gval → Option (List Gval)
  | [], _, r => some r
  | elem :: elems, y, r =>
    let r1 := zipPadLoop blank (y + 1) maxL r
    match r1.get? y with
    | none => none
    | some row => zipRow maxL blank elems (y + 1) (r1.set y (row.pushElem elem))

/-- The row iteration of Gs::zip. -/
def zipRows (maxL : Nat) (blank : Gval) : List Gval → List Gval → Option (List Gval)
  | [], r => some r
  | row :: rows, r => (zipRow maxL blank row.as_arr 0 r).bind (zipRows maxL blank rows)

/-- Gs::zip of src/lib.rs: pop().unwrap().unwrap_arr() obtains the rows
(panicking on an empty stack or a non-array), then transpose with the
factory of the first row as the padding blank. -/
def Gs.zip (st : GsState) : Option GsState :=
  match Gs.pop st with
  | (none, _) => none
  | (some v, st1) =>
    match v.unwrap_arr with
    | none => none
    | some a =>
      let blank := match a.head? with
                   | none => Gval.arr []
                   | some x => x.factory
      (zipRows st1.maxLoops blank a []).map fun r => Gs.push st1 (.arr r)

/-- The digit-sequence reduction of Gs::base: fold total * b + digit,
panicking on a non-Int digit. -/
def baseFold (b : Int) : List Gval → Int → Option Int
  | [], total => some total
  | d :: ds, total =>
    match d.unwrap_int with
    | none => none
    | some di => baseFold b ds (total * b + di)

/-- Gs::base of src/lib.rs: pop().unwrap().unwrap_int() obtains the base
(panicking on an empty stack or a non-Int); an Int second operand yields
its digits most significant first from the absolute value, any other
popped value is reduced as a digit sequence, and an underflow pushes
Int 0. -/
def Gs.base (st : GsState) : Option GsState :=
  match Gs.pop st with
  | (none, _) => none
  | (some bv, st1) =>
    match bv.unwrap_int with
    | none => none
    | some b =>
      match Gs.pop st1 with
      | (some (.int n), st2) =>
        (baseDigitsLoop b st2.maxLoops (n.natAbs : Int)).map fun ds =>
          Gs.push st2 (.arr ds.reverse)
      | (some v, st2) =>
        (baseFold b v.as_arr 0).map fun total => Gs.push st2 (.int total)
      | (none, st2) => some (Gs.push st2 (.int 0))

/-! ## Token dispatch and the evaluation loop of src/lib.rs -/

/-- Gs::run_token's symbol dispatch (the arms of the match following the
variable lookup); an unrecognized symbol is a no-op. -/
def runSymbol (run : Runner) (s : List Nat) (st : GsState) : Option GsState :=
  if s = [126] then Gs.tilde run st
  else if s = [96] then some (Gs.backtick st)
  else if s = [33] then some (Gs.bang st)
  else if s = [64] then some (Gs.at_sign st)
  else if s = [36] then Gs.dollar run st
  else if s = [43] then some (Gs.plusOp st)
  else if s = [45] then some (Gs.minus st)
  else if s = [42] then Gs.asterisk run st
  else if s = [47] then Gs.slash run st
  else if s = [37] then Gs.percent run st
  else if s = [124] then some (Gs.vertical_bar st)
  else if s = [38] then some (Gs.ampersand st)
  else if s = [94] then some (Gs.caret st)
  else if s = [91] then some { st with lb := st.stack.length :: st.lb }
  else if s = [93] then
    let j := st.lb.headD 0
    let st1 := { st with lb := st.lb.tail }
    if st1.stack.length < j then none
    else
      let vs := (st1.stack.take (st1.stack.length - j)).reverse
      some (Gs.push { st1 with stack := st1.stack.drop (st1.stack.length - j) } (.arr vs))
  else if s = [92] then
    match Gs.pop st with
    | (some b, st1) =>
      match Gs.pop st1 with
      | (some a, st2) => some (Gs.push (Gs.push st2 b) a)
      | (none, st2) => some (Gs.push st2 b)
    | (none, st1) => some st1
  else if s = [59] then some (Gs.pop st).2
  else if s = [60] then some (Gs.lteqgt .lt st)
  else if s = [61] then some (Gs.lteqgt .eq st)
  else if s = [62] then some (Gs.lteqgt .gt st)
  else if s = [44] then Gs.comma run st
  else if s = [46] then some (Gs.dup st)
  else if s = [63] then Gs.question run st
  else if s = [40] then some (Gs.left_paren st)
  else if s = [41] then some (Gs.right_paren st)
  else if s = [97, 110, 100] then
    match Gs.pop st with
    | (some b, st1) =>
      match Gs.pop st1 with
      | (some a, st2) => goWith run (if a.truthy then b else a) st2
      | (none, st2) => goWith run b st2
    | (none, st1) => some (Gs.push st1 (Gval.ofBool false))
  else if s = [111, 114] then
    match Gs.pop st with
    | (some b, st1) =>
      match Gs.pop st1 with
      | (some a, st2) => goWith run (if a.truthy then a else b) st2
      | (none, st2) => goWith run b st2
    | (none, st1) => some (Gs.push st1 (Gval.ofBool false))
  else if s = [120, 111, 114] then
    let (b, st1) := Gs.popOr st
    let (a, st2) := Gs.popOr st1
    goWith run
      (if a.truthy && b.falsey then a
       else if a.falsey && b.truthy then b
       else Gval.ofBool false) st2
  else if s = [110] then some (Gs.push st (.str [10]))
  else if s = [112, 114, 105, 110, 116] then
    match Gs.pop st with
    | (some a, st1) => some (Gs.print st1 a.to_gs)
    | (none, st1) => some (Gs.print st1 [])
  else if s = [112] then
    match Gs.pop st with
    | (some a, st1) => some (Gs.print (Gs.print st1 a.inspect) [10])
    | (none, st1) => some (Gs.print st1 [10])
  else if s = [112, 117, 116, 115] then
    match Gs.pop st with
    | (some a, st1) => some (Gs.print (Gs.print st1 a.to_gs) [10])
    | (none, st1) => some (Gs.print st1 [10])
  else if s = [114, 97, 110, 100] then some (Gs.rand st)
  else if s = [100, 111] then Gs.do_loop run st
  else if s = [119, 104, 105, 108, 101] then Gs.while_loop run true st
  else if s = [117, 110, 116, 105, 108] then Gs.while_loop run false st
  else if s = [105, 102] then
    let (c, st1) := match Gs.pop st with
                    | (some v, st') => (v, st')
                    | (none, st') => (Gval.ofBool false, st')
    let (b, st2) := match Gs.pop st1 with
                    | (some v, st') => (v, st')
                    | (none, st') => (Gval.ofBool false, st')
    let (a, st3) := match Gs.pop st2 with
                    | (some v, st') => (v, st')
                    | (none, st') => (Gval.ofBool false, st')
    if a.truthy then goWith run b st3 else goWith run c st3
  else if s = [97, 98, 115] then
    let (a, st1) := match Gs.pop st with
                    | (some v, st') => (v, st')
                    | (none, st') => (Gval.int 0, st')
    match a with
    | .int n => some (Gs.push st1 (.int n.natAbs))
    | _ => some (Gs.push st1 a)
  else if s = [122, 105, 112] then Gs.zip st
  else if s = [98, 97, 115, 101] then Gs.base st
  else some st

/-- Gs::run_token of src/lib.rs: a token whose lexeme is bound in the
variable map executes the bound value and nothing else; otherwise
literals push, blocks push without entering, comments do nothing, and
symbols dispatch to the operator table. -/
def runTokenWith (run : Runner) (tok : Gtoken) (st : GsState) : Option GsState :=
  match lookupVar st.vars tok.lexeme with
  | some v => goWith run v st
  | none =>
    match tok with
    | .intLiteral bs => some (Gs.push st (.int (parseIntBytes bs)))
    | .singleQuotedString bs => some (Gs.push st (.str (unescape bs true)))
    | .doubleQuotedString bs => some (Gs.push st (.str (unescape bs false)))
    | .symbol s => runSymbol run s st
    | .block _ src => some (Gs.push st (.blk src))
    | .comment _ => some st

/-- The token loop of Gs::run of src/lib.rs: a colon token consumes the
following token (if any) and performs the assignment; every other token
is dispatched through run_token. -/
def runTokensWith (run : Runner) : List Gtoken → GsState → Option GsState
  | [], st => some st
  | tok :: rest, st =>
    if tok = Gtoken.symbol [58] then
      match rest with
      | [] => some st
      | name :: rest2 => runTokensWith run rest2 (Gs.assign st name.lexeme)
    else
      (runTokenWith run tok st).bind (runTokensWith run rest)

/-- One level of Gs::run of src/lib.rs: parse the code and run the
token stream; a non-empty parse remainder returns silently without
executing anything. -/
def runStep (run : Runner) (st : GsState) (code : List Nat) : Option GsState :=
  let pr := parseCode code
  if pr.1.isEmpty then runTokensWith run pr.2 st else some st

/-- Gs::run of src/lib.rs, fuel-indexed: every recursive entry into run
through a block, a loop body, or a mapped code fragment consumes one
unit of fuel; exhausted fuel is none. -/
def runF : Nat → Runner
  | 0, _, _ => none
  | fuel + 1, st, code => runStep (runF fuel) st code

/-- The sandboxed entry point golfscript of src/lib.rs: push the input
bytes as a Str on the fresh state, set max_loops to 2000, run the
source, wrap the whole final stack in a single Arr (bottom first, hence
the reverse under the top-at-head representation), run the one-token
program puts, and return the output buffer. -/
def golfscript (fuel : Nat) (input source : List Nat) : Option (List Nat) :=
  let st0 := { Gs.new with maxLoops := 2000, stack := [Gval.str input] }
  (runF fuel st0 source).bind fun st1 =>
    let st2 := { st1 with stack := [Gval.arr st1.stack.reverse] }
    (runF fuel st2 [112, 117, 116, 115]).map fun st3 => st3.output

/-! ## The strict evaluator (struct Gs of src/main.rs); panics are
none. -/

/-- The evaluator state of src/main.rs: stack, variable map and bracket
stack only (the unused parse_cache field of the struct is not part of
the observable state). -/
structure StState where
  stack : List Gval
  vars : List (List Nat × Gval)
  lb : List Nat
deriving Repr, DecidableEq

/-- Gs::new of src/main.rs: empty stack and bracket stack; the variable
map is pre-seeded with n bound to the newline string. -/
def StGs.new : StState :=
  { stack := [], vars := [([110], Gval.str [10])], lb := [] }

/-- Push on the strict state. -/
def StGs.push (st : StState) (v : Gval) : StState :=
  { st with stack := v :: st.stack }

/-- The bracket-stack walk of Gs::pop of src/main.rs: starting from the
newest entry, while the entry is strictly below the current stack
length, decrement it and continue; decrementing a zero entry is a usize
underflow (none models the debug-build panic). -/
def strictPopWalk (len : Nat) : List Nat → Option (List Nat)
  | [] => some []
  | e :: rest =>
    if e < len then
      if e = 0 then none
      else (strictPopWalk len rest).map fun lb2 => (e - 1) :: lb2
    else some (e :: rest)

/-- Gs::pop of src/main.rs: walk the bracket stack, then pop; an empty
stack is a fatal stack underflow (expect). -/
def StGs.pop (st : StState) : Option (Gval × StState) :=
  (strictPopWalk st.stack.length st.lb).bind fun lb2 =>
    match st.stack with
    | [] => none
    | v :: s => some (v, { st with lb := lb2, stack := s })

/-- Gs::top of src/main.rs: the top of the stack, fatal when empty. -/
def StGs.top (st : StState) : Option Gval := st.stack.head?

/-- The strict runner type. -/
abbrev StRunner := StState → List Nat → Option StState

/-- Gs::go of src/main.rs. -/
def stGoWith (run : StRunner) (v : Gval) (st : StState) : Option StState :=
  match v with
  | .blk s => run st s
  | _ => some (StGs.push st v)

/-- Gs::tilde of src/main.rs. -/
def StGs.tilde (run : StRunner) (st : StState) : Option StState :=
  (StGs.pop st).bind fun (v, st1) =>
    match v with
    | .int n => some (StGs.push st1 (.int (-n - 1)))
    | .arr vs => some { st1 with stack := vs.reverse ++ st1.stack }
    | .str bs => run st1 bs
    | .blk bs => run st1 bs

/-- Gs::backtick of src/main.rs. -/
def StGs.backtick (st : StState) : Option StState :=
  (StGs.pop st).map fun (v, st1) => StGs.push st1 (.str v.inspect)

/-- Gs::bang of src/main.rs. -/
def StGs.bang (st : StState) : Option StState :=
  (StGs.pop st).map fun (v, st1) =>
    StGs.push st1 (.int (if v.falsey then 1 else 0))

/-- Gs::at_sign of src/main.rs. -/
def StGs.at_sign (st : StState) : Option StState :=
  (StGs.pop st).bind fun (c, st1) =>
    (StGs.pop st1).bind fun (b, st2) =>
      (StGs.pop st2).map fun (a, st3) =>
        StGs.push (StGs.push (StGs.push st3 b) c) a

/-- The key pass of Gs::sort_by of src/main.rs (the key pop is fatal on
underflow). -/
def stSortByKeys {α} (run : StRunner) (code : List Nat) (inj : α → Gval) :
    List α → StState → Option (List (Gval × α) × StState)
  | [], st => some ([], st)
  | v :: vs, st =>
    (run (StGs.push st (inj v)) code).bind fun st1 =>
      (StGs.pop st1).bind fun (a, st2) =>
        (stSortByKeys run code inj vs st2).map fun p => ((a, v) :: p.1, p.2)

/-- Gs::sort_by of src/main.rs. -/
def StGs.sort_by {α} (run : StRunner) (code : List Nat) (inj : α → Gval)
    (vs : List α) (st : StState) : Option (List α × StState) :=
  (stSortByKeys run code inj vs st).map fun p =>
    ((p.1.mergeSort fun x y => Gval.cmp x.1 y.1 ≠ .gt).map (·.2), p.2)

/-- Gs::dollar of src/main.rs; sorting by a block over a popped Int is a
fatal error. -/
def StGs.dollar (run : StRunner) (st : StState) : Option StState :=
  (StGs.pop st).bind fun (v, st1) =>
    match v with
    | .int n =>
      let len : Int := st1.stack.length
      if n < -1 then
        let i := (-n - 2).toNat
        if i < st1.stack.length then
          some (StGs.push st1 ((st1.stack.get? (st1.stack.length - 1 - i)).getD (.arr [])))
        else some st1
      else if 0 ≤ n ∧ n < len then
        let i := (len - 1 - n).toNat
        some (StGs.push st1 ((st1.stack.get? (st1.stack.length - 1 - i)).getD (.arr [])))
      else some st1
    | .arr vs => some (StGs.push st1 (.arr (vs.mergeSort fun x y => Gval.cmp x y ≠ .gt)))
    | .str bs => some (StGs.push st1 (.str (bs.mergeSort fun x y => x ≤ y)))
    | .blk code =>
      (StGs.pop st1).bind fun (w, st2) =>
        match w with
        | .int _ => none
        | .arr vs => (StGs.sort_by run code id vs st2).map fun p => StGs.push p.2 (.arr p.1)
        | .str vs =>
          (StGs.sort_by run code (fun b : Nat => Gval.int (b : Int)) vs st2).map fun p =>
            StGs.push p.2 (.str p.1)
        | .blk vs =>
          (StGs.sort_by run code (fun b : Nat => Gval.int (b : Int)) vs st2).map fun p =>
            StGs.push p.2 (.blk p.1)

/-- Gs::plus of src/main.rs. -/
def StGs.plusOp (st : StState) : Option StState :=
  (StGs.pop st).bind fun (b, st1) =>
    (StGs.pop st1).map fun (a, st2) => StGs.push st2 (a.plus b)

/-- Gs::minus of src/main.rs. -/
def StGs.minus (st : StState) : Option StState :=
  (StGs.pop st).bind fun (b, st1) =>
    (StGs.pop st1).map fun (a, st2) =>
      match coerce a b with
      | .ints x y => StGs.push st2 (.int (x - y))
      | .arrs x y => StGs.push st2 (.arr (set_subtract x y))
      | .strs x y => StGs.push st2 (.str (set_subtract x y))
      | .blks x y => StGs.push st2 (.blk (set_subtract x y))

/-- Gs::fold of src/main.rs. -/
def stFoldRest (run : StRunner) (code : List Nat) : List Gval → StState → Option StState
  | [], st => some st
  | v :: vs, st => (run (StGs.push st v) code).bind (stFoldRest run code vs)

/-- Entry of Gs::fold of src/main.rs. -/
def stFoldWith (run : StRunner) (code : List Nat) : List Gval → StState → Option StState
  | [], st => some st
  | v :: vs, st => stFoldRest run code vs (StGs.push st v)

/-- Gs::each of src/main.rs. -/
def stEachWith (run : StRunner) (code : List Nat) : List Gval → StState → Option StState
  | [], st => some st
  | v :: vs, st => (run (StGs.push st v) code).bind (stEachWith run code vs)

/-- Gs::gs_map of src/main.rs (returns the collected Arr value). -/
def stMapWith (run : StRunner) (code : List Nat) : List Gval → StState → Option (List Gval × StState)
  | [], st => some ([], st)
  | v :: vs, st =>
    let lbLen := st.stack.length
    (run (StGs.push st v) code).bind fun st1 =>
      if st1.stack.length < lbLen then none
      else
        let taken := (st1.stack.take (st1.stack.length - lbLen)).reverse
        let st2 := { st1 with stack := st1.stack.drop (st1.stack.length - lbLen) }
        (stMapWith run code vs st2).map fun p => (taken ++ p.1, p.2)

/-- Gs::select of src/main.rs (the flag pop is fatal on underflow). -/
def stSelectWith {α} (run : StRunner) (code : List Nat) (inj : α → Gval) :
    List α → StState → Option (List α × StState)
  | [], st => some ([], st)
  | v :: vs, st =>
    (run (StGs.push st (inj v)) code).bind fun st1 =>
      (StGs.pop st1).bind fun (t, st2) =>
        (stSelectWith run code inj vs st2).map fun p =>
          (if t.falsey then p.1 else v :: p.1, p.2)

/-- Gs::find of src/main.rs. -/
def stFindWith {α} (run : StRunner) (code : List Nat) (inj : α → Gval) :
    List α → StState → Option StState
  | [], st => some st
  | v :: vs, st =>
    (run (StGs.push st (inj v)) code).bind fun st1 =>
      (StGs.pop st1).bind fun (t, st2) =>
        if t.falsey then stFindWith run code inj vs st2
        else some (StGs.push st2 (inj v))

/-- The uncapped times loop of Gs::asterisk of src/main.rs, fuel-indexed
through the runner only: the loop itself runs n times (n is an honest
bound since the loop body cannot change n). -/
def stTimesLoop (run : StRunner) (f : List Nat) : Nat → StState → Option StState
  | 0, st => some st
  | n + 1, st => (run st f).bind (stTimesLoop run f n)

/-- Gs::asterisk of src/main.rs. -/
def StGs.asterisk (run : StRunner) (st : StState) : Option StState :=
  (StGs.pop st).bind fun (b, st1) =>
    (StGs.pop st1).bind fun (a, st2) =>
      match a, b with
      | .int x, .int y => some (StGs.push st2 (.int (x * y)))
      | .arr x, .arr sep => some (StGs.push st2 (gsJoin x (.arr sep)))
      | .str x, .str sep =>
        some (StGs.push st2 (gsJoin (x.map fun c => Gval.str [c]) (.str sep)))
      | .arr x, .str sep => some (StGs.push st2 (gsJoin x (.str sep)))
      | .str sep, .arr x => some (StGs.push st2 (gsJoin x (.str sep)))
      | .blk code, .blk x => stFoldWith run code (x.map fun c : Nat => Gval.int (c : Int)) st2
      | .str x, .blk code => stFoldWith run code (x.map fun c : Nat => Gval.int (c : Int)) st2
      | .blk code, .str x => stFoldWith run code (x.map fun c : Nat => Gval.int (c : Int)) st2
      | .arr x, .blk code => stFoldWith run code x st2
      | .blk code, .arr x => stFoldWith run code x st2
      | .int n, .arr x => some (StGs.push st2 (.arr (gsRepeat x n)))
      | .arr x, .int n => some (StGs.push st2 (.arr (gsRepeat x n)))
      | .int n, .str x => some (StGs.push st2 (.str (gsRepeat x n)))
      | .str x, .int n => some (StGs.push st2 (.str (gsRepeat x n)))
      | .int n, .blk f => stTimesLoop run f n.toNat st2
      | .blk f, .int n => stTimesLoop run f n.toNat st2

/-- Gs::slash of src/main.rs: truncated BigInt division (fatal on a zero
divisor), splits without empty-separator guards, each, chunk, and fatal
or unimplemented block forms. -/
def StGs.slash (run : StRunner) (st : StState) : Option StState :=
  (StGs.pop st).bind fun (b, st1) =>
    (StGs.pop st1).bind fun (a, st2) =>
      match a, b with
      | .int x, .int y =>
        if y = 0 then none else some (StGs.push st2 (.int (Int.tdiv x y)))
      | .arr x, .arr sep => some (StGs.push st2 (.arr ((gsSplit x sep false).map .arr)))
      | .str x, .str sep => some (StGs.push st2 (.arr ((gsSplit x sep false).map .str)))
      | .arr x, .str sep =>
        some (StGs.push st2 (.arr ((gsSplit x (sep.map fun c : Nat => Gval.int (c : Int)) false).map .arr)))
      | .str sep, .arr x =>
        some (StGs.push st2 (.arr ((gsSplit x (sep.map fun c : Nat => Gval.int (c : Int)) false).map .arr)))
      | .str x, .blk code => stEachWith run code (x.map fun c : Nat => Gval.int (c : Int)) st2
      | .blk code, .str x => stEachWith run code (x.map fun c : Nat => Gval.int (c : Int)) st2
      | .arr x, .blk code => stEachWith run code x st2
      | .blk code, .arr x => stEachWith run code x st2
      | .int n, .arr x => some (StGs.push st2 (.arr ((gsChunk x n).map .arr)))
      | .arr x, .int n => some (StGs.push st2 (.arr ((gsChunk x n).map .arr)))
      | .int n, .str x => some (StGs.push st2 (.arr ((gsChunk x n).map .str)))
      | .str x, .int n => some (StGs.push st2 (.arr ((gsChunk x n).map .str)))
      | .blk _, .blk _ => none
      | .blk _, .int _ => none
      | .int _, .blk _ => none

/-- Gs::percent of src/main.rs: truncated BigInt remainder (fatal on a
zero divisor), clean splits without guards, map, every-nth without
guards, and fatal block-Int forms. -/
def StGs.percent (run : StRunner) (st : StState) : Option StState :=
  (StGs.pop st).bind fun (b, st1) =>
    (StGs.pop st1).bind fun (a, st2) =>
      match a, b with
      | .int x, .int y =>
        if y = 0 then none else some (StGs.push st2 (.int (Int.tmod x y)))
      | .arr x, .arr sep => some (StGs.push st2 (.arr ((gsSplit x sep true).map .arr)))
      | .str x, .str sep => some (StGs.push st2 (.arr ((gsSplit x sep true).map .str)))
      | .arr x, .str sep =>
        some (StGs.push st2 (.arr ((gsSplit x (sep.map fun c : Nat => Gval.int (c : Int)) true).map .arr)))
      | .str sep, .arr x =>
        some (StGs.push st2 (.arr ((gsSplit x (sep.map fun c : Nat => Gval.int (c : Int)) true).map .arr)))
      | .arr x, .blk code =>
        (stMapWith run code x st2).map fun p => StGs.push p.2 (.arr p.1)
      | .blk code, .arr x =>
        (stMapWith run code x st2).map fun p => StGs.push p.2 (.arr p.1)
      | .str x, .blk code =>
        (stMapWith run code (x.map fun c : Nat => Gval.int (c : Int)) st2).map fun p =>
          StGs.push p.2 (.str (Gval.arr p.1).to_gs)
      | .blk code, .str x =>
        (stMapWith run code (x.map fun c : Nat => Gval.int (c : Int)) st2).map fun p =>
          StGs.push p.2 (.str (Gval.arr p.1).to_gs)
      | .int n, .arr x => some (StGs.push st2 (.arr (every_nth x n)))
      | .arr x, .int n => some (StGs.push st2 (.arr (every_nth x n)))
      | .int n, .str x => some (StGs.push st2 (.str (every_nth x n)))
      | .str x, .int n => some (StGs.push st2 (.str (every_nth x n)))
      | .int _, .blk _ => none
      | .blk _, .int _ => none
      | .blk _, .blk _ => none

/-- Gs::vertical_bar of src/main.rs. -/
def StGs.vertical_bar (st : StState) : Option StState :=
  (StGs.pop st).bind fun (b, st1) =>
    (StGs.pop st1).map fun (a, st2) =>
      match coerce a b with
      | .ints x y => StGs.push st2 (.int (Int.lor x y))
      | .arrs x y => StGs.push st2 (.arr (set_or x y))
      | .strs x y => StGs.push st2 (.str (set_or x y))
      | .blks x y => StGs.push st2 (.blk (set_or x y))

/-- Gs::ampersand of src/main.rs. -/
def StGs.ampersand (st : StState) : Option StState :=
  (StGs.pop st).bind fun (b, st1) =>
    (StGs.pop st1).map fun (a, st2) =>
      match coerce a b with
      | .ints x y => StGs.push st2 (.int (Int.land x y))
      | .arrs x y => StGs.push st2 (.arr (set_and x y))
      | .strs x y => StGs.push st2 (.str (set_and x y))
      | .blks x y => StGs.push st2 (.blk (set_and x y))

/-- Gs::caret of src/main.rs. -/
def StGs.caret (st : StState) : Option StState :=
  (StGs.pop st).bind fun (b, st1) =>
    (StGs.pop st1).map fun (a, st2) =>
      match coerce a b with
      | .ints x y => StGs.push st2 (.int (Int.xor x y))
      | .arrs x y => StGs.push st2 (.arr (set_xor x y))
      | .strs x y => StGs.push st2 (.str (set_xor x y))
      | .blks x y => StGs.push st2 (.blk (set_xor x y))

/-- Gs::lteqgt of src/main.rs. -/
def StGs.lteqgt (o : Ordering) (st : StState) : Option StState :=
  (StGs.pop st).bind fun (b, st1) =>
    (StGs.pop st1).map fun (a, st2) =>
      match o, a, b with
      | .eq, .int i, .arr h | .eq, .arr h, .int i =>
        match gsIndex h i with
        | some x => StGs.push st2 x
        | none => st2
      | .eq, .int i, .str h | .eq, .str h, .int i
      | .eq, .int i, .blk h | .eq, .blk h, .int i =>
        match gsIndex h i with
        | some x => StGs.push st2 (.int x)
        | none => st2
      | o2, .int i, .arr h | o2, .arr h, .int i => StGs.push st2 (.arr (gsSlice o2 h i))
      | o2, .int i, .str h | o2, .str h, .int i => StGs.push st2 (.str (gsSlice o2 h i))
      | o2, .int i, .blk h | o2, .blk h, .int i => StGs.push st2 (.blk (gsSlice o2 h i))
      | o2, x, y => StGs.push st2 (Gval.ofBool (Gval.cmp x y == o2))

/-- The uncapped range loop of Gs::comma of src/main.rs. -/
def stRangeLoop (i : Int) (n : Int) : List Gval :=
  if i < n then .int i :: stRangeLoop (i + 1) n else []
termination_by (n - i).toNat
decreasing_by
  rename_i h
  omega

/-- Gs::comma of src/main.rs; select over a popped Int is fatal. -/
def StGs.comma (run : StRunner) (st : StState) : Option StState :=
  (StGs.pop st).bind fun (v, st1) =>
    match v with
    | .int n => some (StGs.push st1 (.arr (stRangeLoop 0 n)))
    | .arr a => some (StGs.push st1 (.int a.length))
    | .str a => some (StGs.push st1 (.int a.length))
    | .blk code =>
      (StGs.pop st1).bind fun (w, st2) =>
        match w with
        | .int _ => none
        | .arr a => (stSelectWith run code id a st2).map fun p => StGs.push p.2 (.arr p.1)
        | .str a =>
          (stSelectWith run code (fun c : Nat => Gval.int (c : Int)) a st2).map fun p =>
            StGs.push p.2 (.str p.1)
        | .blk a =>
          (stSelectWith run code (fun c : Nat => Gval.int (c : Int)) a st2).map fun p =>
            StGs.push p.2 (.blk p.1)

/-- The (Int, Int) power of Gs::question of src/main.rs: the exact
a.pow(e) for an exponent fitting u32, otherwise 0 (no guard, no base
conversion). -/
def strictQuestionIntInt (a b : Int) : Gval :=
  match toU32 b with
  | some e => .int (a ^ e)
  | none => .int 0

/-- Gs::question of src/main.rs; the Int-Blk find forms are fatal. -/
def StGs.question (run : StRunner) (st : StState) : Option StState :=
  (StGs.pop st).bind fun (b, st1) =>
    (StGs.pop st1).bind fun (a, st2) =>
      match a, b with
      | .int x, .int y => some (StGs.push st2 (strictQuestionIntInt x y))
      | .arr h, .int m => some (StGs.push st2 (.int (positionIdx h (.int m))))
      | .int m, .arr h => some (StGs.push st2 (.int (positionIdx h (.int m))))
      | .arr h, .str s2 => some (StGs.push st2 (.int (positionIdx h (.str s2))))
      | .str s2, .arr h => some (StGs.push st2 (.int (positionIdx h (.str s2))))
      | .arr h, .arr n2 => some (StGs.push st2 (.int (positionIdx h (.arr n2))))
      | .str h, .int m => some (StGs.push st2 (.int (bytePositionIdx h m)))
      | .int m, .str h => some (StGs.push st2 (.int (bytePositionIdx h m)))
      | .str h, .str n2 => some (StGs.push st2 (.int (string_index h n2)))
      | .int _, .blk _ => none
      | .blk _, .int _ => none
      | .blk code, .blk x => stFindWith run code (fun c : Nat => Gval.int (c : Int)) x st2
      | .blk code, .str x => stFindWith run code (fun c : Nat => Gval.int (c : Int)) x st2
      | .str x, .blk code => stFindWith run code (fun c : Nat => Gval.int (c : Int)) x st2
      | .blk code, .arr x => stFindWith run code id x st2
      | .arr x, .blk code => stFindWith run code id x st2

/-- Gs::left_paren of src/main.rs: unconsing an empty sequence is a
fatal out-of-bounds slice. -/
def StGs.left_paren (st : StState) : Option StState :=
  (StGs.pop st).bind fun (v, st1) =>
    match v with
    | .int n => some (StGs.push st1 (.int (n - 1)))
    | .arr a =>
      match a with
      | [] => none
      | x :: xs => some (StGs.push (StGs.push st1 (.arr xs)) x)
    | .str a =>
      match a with
      | [] => none
      | x :: xs => some (StGs.push (StGs.push st1 (.str xs)) (.int x))
    | .blk a =>
      match a with
      | [] => none
      | x :: xs => some (StGs.push (StGs.push st1 (.blk xs)) (.int x))

/-- Gs::right_paren of src/main.rs: splitting an empty sequence is a
fatal unwrap. -/
def StGs.right_paren (st : StState) : Option StState :=
  (StGs.pop st).bind fun (v, st1) =>
    match v with
    | .int n => some (StGs.push st1 (.int (n + 1)))
    | .arr a =>
      match a.getLast? with
      | none => none
      | some l => some (StGs.push (StGs.push st1 (.arr a.dropLast)) l)
    | .str a =>
      match a.getLast? with
      | none => none
      | some l => some (StGs.push (StGs.push st1 (.str a.dropLast)) (.int l))
    | .blk a =>
      match a.getLast? with
      | none => none
      | some l => some (StGs.push (StGs.push st1 (.blk a.dropLast)) (.int l))

/-- Gs::run_builtin of src/main.rs: a Symbol token bound in the variable
map first executes the bound value WITHOUT returning, after which the
token still falls through to the builtin match; string literals strip
their first and last body byte; unknown symbols are no-ops; a comment
reaches the todo branch and is fatal. -/
def strictRunBuiltin (run : StRunner) (tok : Gtoken) (st : StState) : Option StState :=
  (match tok with
   | .symbol _ =>
     match lookupVar st.vars tok.lexeme with
     | some w => stGoWith run w st
     | none => some st
   | _ => some st).bind fun (st1 : StState) =>
    match tok with
    | .intLiteral bs => some (StGs.push st1 (.int (parseIntBytes bs)))
    | .singleQuotedString bs => some (StGs.push st1 (.str (bs.drop 1).dropLast))
    | .doubleQuotedString bs => some (StGs.push st1 (.str (bs.drop 1).dropLast))
    | .symbol s =>
      if s = [126] then StGs.tilde run st1
      else if s = [96] then StGs.backtick st1
      else if s = [33] then StGs.bang st1
      else if s = [64] then StGs.at_sign st1
      else if s = [36] then StGs.dollar run st1
      else if s = [43] then StGs.plusOp st1
      else if s = [45] then StGs.minus st1
      else if s = [42] then StGs.asterisk run st1
      else if s = [47] then StGs.slash run st1
      else if s = [37] then StGs.percent run st1
      else if s = [124] then StGs.vertical_bar st1
      else if s = [38] then StGs.ampersand st1
      else if s = [94] then StGs.caret st1
      else if s = [91] then some { st1 with lb := st1.stack.length :: st1.lb }
      else if s = [93] then
        let j := st1.lb.headD 0
        let st2 := { st1 with lb := st1.lb.tail }
        if st2.stack.length < j then none
        else
          let vs := (st2.stack.take (st2.stack.length - j)).reverse
          some (StGs.push { st2 with stack := st2.stack.drop (st2.stack.length - j) } (.arr vs))
      else if s = [92] then
        (StGs.pop st1).bind fun (b, st2) =>
          (StGs.pop st2).map fun (a, st3) => StGs.push (StGs.push st3 b) a
      else if s = [59] then
        match StGs.pop st1 with
        | none => none
        | some (_, st2) => some st2
      else if s = [60] then StGs.lteqgt .lt st1
      else if s = [61] then StGs.lteqgt .eq st1
      else if s = [62] then StGs.lteqgt .gt st1
      else if s = [44] then StGs.comma run st1
      else if s = [46] then (StGs.top st1).map (StGs.push st1)
      else if s = [63] then StGs.question run st1
      else if s = [40] then StGs.left_paren st1
      else if s = [41] then StGs.right_paren st1
      else if s = [111, 114] then
        (StGs.pop st1).bind fun (b, st2) =>
          (StGs.pop st2).map fun (a, st3) =>
            StGs.push st3 (if Gval.falsey a then b else a)
      else some st1
    | .block _ src => some (StGs.push st1 (.blk src))
    | .comment _ => none

/-- The token loop of Gs::run of src/main.rs: a colon token fatally
requires a following token and a non-empty stack, then binds the
following token's lexeme to the top (not popped). -/
def strictRunTokens (run : StRunner) : List Gtoken → StState → Option StState
  | [], st => some st
  | tok :: rest, st =>
    if tok = Gtoken.symbol [58] then
      match rest with
      | [] => none
      | name :: rest2 =>
        match st.stack with
        | [] => none
        | t :: _ =>
          strictRunTokens run rest2 { st with vars := (name.lexeme, t) :: st.vars }
    else
      (strictRunBuiltin run tok st).bind (strictRunTokens run rest)

/-- One level of Gs::run of src/main.rs: parse, fatally reject a
non-empty remainder, and run the tokens. -/
def strictRunStep (run : StRunner) (st : StState) (code : List Nat) : Option StState :=
  let pr := parseCode code
  if pr.1.isEmpty then strictRunTokens run pr.2 st else none

/-- Gs::run of src/main.rs, fuel-indexed. -/
def strictRunF : Nat → StRunner
  | 0, _, _ => none
  | fuel + 1, st, code => strictRunStep (strictRunF fuel) st code

/-! ## Theorems for the claims -/


theorem popWalk_characterization (len : Nat) :
    ∀ (lb : List Nat) (budget : Nat),
      popWalk len budget lb =
        (lb.take (min budget (lb.takeWhile (fun e => decide (len ≤ e))).length)).map
            (fun e => e - 1) ++
          lb.drop (min budget (lb.takeWhile (fun e => decide (len ≤ e))).length)
  | [], budget => by simp [popWalk]
  | e :: rest, 0 => by simp [popWalk]
  | e :: rest, budget + 1 => by
    by_cases he : len ≤ e
    · have ih := popWalk_characterization len rest budget
      simp only [popWalk, he, if_true, List.takeWhile, decide_eq_true he, decide_True,
        List.length_cons]
      rw [Nat.succ_min_succ]
      simp only [List.take_succ_cons, List.drop_succ_cons, List.map_cons, List.cons_append]
      exact congrArg _ ih
    · simp [popWalk, he, List.takeWhile, decide_eq_false he]

/-- Claim C1 (counterexample): the claimed walk decrements EVERY bracket
entry at least the stack length, but the pop walk of src/lib.rs stops at
the first entry below the stack length: with stack length 2 and bracket
stack [1, 3] (newest first), the code leaves the older entry 3
untouched while the claim demands it become 2. -/
theorem claim_C1_counterexample :
    popWalk 2 2000 [1, 3] ≠ [1, 3].map (fun e => if 2 ≤ e then e - 1 else e) := by
  decide

/-- Claim C1 (amended): before a value is removed, the pop of the
sandboxed evaluator walks the bracket stack from newest to oldest and
decrements (floored at 0) exactly the entries of the maximal newest-first
run of entries at least the current stack length, stopping at the first
entry below it and after at most max_loops steps; all remaining entries
are unchanged.  The second conjunct ties Gs.pop to this walk. -/
theorem claim_C1_amended :
    (∀ len budget lb,
      popWalk len budget lb =
        (lb.take (min budget (lb.takeWhile (fun e => decide (len ≤ e))).length)).map
            (fun e => e - 1) ++
          lb.drop (min budget (lb.takeWhile (fun e => decide (len ≤ e))).length)) ∧
    (∀ st : GsState, ((Gs.pop st).2).lb = popWalk st.stack.length st.maxLoops st.lb) := by
  constructor
  · exact fun len budget lb => popWalk_characterization len lb budget
  · intro st
    cases st with
    | mk stack vars lb rng stb out ml => cases stack <;> rfl

/-- Claim C2 (code_bug): the claim says an underflowing pop never aborts
and in particular zip and base on an empty stack continue; the pop of
src/lib.rs itself does recover (second conjunct: it yields none and
clears the stable flag), but Gs::zip and Gs::base call
pop().unwrap(), which panics on the empty stack (first conjunct: both
are none, the modelled panic). -/
theorem claim_C2_code_bug :
    (∀ vars lb rng stb out ml,
      Gs.zip ⟨[], vars, lb, rng, stb, out, ml⟩ = none ∧
      Gs.base ⟨[], vars, lb, rng, stb, out, ml⟩ = none) ∧
    (∀ vars lb rng stb out ml,
      (Gs.pop ⟨[], vars, lb, rng, stb, out, ml⟩).1 = none ∧
      ((Gs.pop ⟨[], vars, lb, rng, stb, out, ml⟩).2).stable = false) := by
  exact ⟨fun _ _ _ _ _ _ => ⟨rfl, rfl⟩, fun _ _ _ _ _ _ => ⟨rfl, rfl⟩⟩

/-- Claim C8: a colon token consumes the following token t and binds t's
lexeme to a clone of the top of the stack; the stack is left exactly
unchanged (the top is not popped; even the bracket stack is untouched);
with an empty stack the assignment is a no-op in the sandboxed
evaluator and a fatal error in the strict one.  This holds for every
following token t, bound or built-in. -/
theorem claim_C8 :
    (∀ (run : Runner) (t : Gtoken) (rest : List Gtoken) (st : GsState),
      runTokensWith run (Gtoken.symbol [58] :: t :: rest) st =
        runTokensWith run rest (Gs.assign st t.lexeme)) ∧
    (∀ st name, (Gs.assign st name).stack = st.stack) ∧
    (∀ name v s vars lb rng stb out ml,
      Gs.assign ⟨v :: s, vars, lb, rng, stb, out, ml⟩ name =
        ⟨v :: s, (name, v) :: vars, lb, rng, stb, out, ml⟩) ∧
    (∀ name vars lb rng stb out ml,
      Gs.assign ⟨[], vars, lb, rng, stb, out, ml⟩ name =
        ⟨[], vars, lb, rng, stb, out, ml⟩) ∧
    (∀ (run : StRunner) (t : Gtoken) (rest : List Gtoken) vars lb,
      strictRunTokens run (Gtoken.symbol [58] :: t :: rest) ⟨[], vars, lb⟩ = none) := by
  refine ⟨fun run t rest st => ?_, fun st name => ?_, fun _ _ _ _ _ _ _ _ _ => rfl,
    fun _ _ _ _ _ _ _ => rfl, fun run t rest vars lb => ?_⟩
  · simp [runTokensWith]
  · cases st with
    | mk stack vars lb rng stb out ml => cases stack <;> rfl
  · simp [strictRunTokens]

theorem commaRangeLoop_eq (n : Int) :
    ∀ (budget : Nat) (i : Int),
      commaRangeLoop n budget i =
        (List.range (min (n - i).toNat budget)).map (fun k : Nat => Gval.int (i + (k : Int)))
  | 0, i => by simp [commaRangeLoop]
  | budget + 1, i => by
    by_cases h : i < n
    · have hsub : (n - i).toNat = (n - i - 1).toNat + 1 := by omega
      rw [commaRangeLoop, if_pos h, commaRangeLoop_eq n budget (i + 1), hsub,
        Nat.succ_min_succ, List.range_succ_eq_map]
      simp only [List.map_cons, List.map_map, Int.add_zero]
      refine congrArg₂ _ (by simp) ?_
      refine congrArg₂ _ ?_ ?_
      · funext k
        simp only [Function.comp]
        congr 1
        push_cast
        ring
      · congr 2
        omega
    · have hz : (n - i).toNat = 0 := by omega
      rw [commaRangeLoop, if_neg h, hz]
      simp

theorem stRangeLoop_eq :
    ∀ (i n : Int), stRangeLoop i n = (List.range (n - i).toNat).map (fun k : Nat => Gval.int (i + (k : Int)))
  | i, n => by
    by_cases h : i < n
    · have hsub : (n - i).toNat = (n - i - 1).toNat + 1 := by omega
      rw [stRangeLoop, if_pos h, stRangeLoop_eq (i + 1) n, hsub, List.range_succ_eq_map]
      simp only [List.map_cons, List.map_map, Int.add_zero]
      refine congrArg₂ _ (by simp) ?_
      refine congrArg₂ _ ?_ ?_
      · funext k
        simp only [Function.comp]
        congr 1
        push_cast
        ring
      · congr 2
        omega
    · have hz : (n - i).toNat = 0 := by omega
      rw [stRangeLoop, if_neg h, hz]
      simp
termination_by i n => (n - i).toNat
decreasing_by omega

/-- Claim C9 (counterexample): the comma range of the sandboxed
evaluator is truncated at max_loops: with max_loops 2, popping Int 3
produces [0, 1] where the claim demands [0, 1, 2]. -/
theorem claim_C9_counterexample :
    Gs.comma (fun st _ => some st) ⟨[Gval.int 3], [], [], 0, true, [], 2⟩ =
      some ⟨[Gval.arr [Gval.int 0, Gval.int 1]], [], [], 0, true, [], 2⟩ ∧
    Gval.arr [Gval.int 0, Gval.int 1] ≠ Gval.arr [Gval.int 0, Gval.int 1, Gval.int 2] := by
  exact ⟨by decide, by decide⟩

/-- Claim C9 (amended): on a non-negative Int n the sandboxed comma
pushes the Arr [0, ..., min(n, max_loops) - 1] (the range is truncated
at the loop cap; for n at most max_loops it is the full [0, ..., n-1],
and the negative case is empty); on an Arr or Str it pushes the length.
The strict evaluator of src/main.rs pushes the untruncated range. -/
theorem claim_C9_amended :
    (∀ (run : Runner) (n : Int) (s : List Gval) vars lb rng stb out ml,
      Gs.comma run ⟨.int n :: s, vars, lb, rng, stb, out, ml⟩ =
        some ⟨.arr ((List.range (min n.toNat ml)).map fun k : Nat => Gval.int (k : Int)) :: s,
          vars, popWalk (s.length + 1) ml lb, rng, stb, out, ml⟩) ∧
    (∀ (run : Runner) (a : List Gval) (s : List Gval) vars lb rng stb out ml,
      Gs.comma run ⟨.arr a :: s, vars, lb, rng, stb, out, ml⟩ =
        some ⟨.int a.length :: s, vars, popWalk (s.length + 1) ml lb, rng, stb, out, ml⟩) ∧
    (∀ (run : Runner) (a : List Nat) (s : List Gval) vars lb rng stb out ml,
      Gs.comma run ⟨.str a :: s, vars, lb, rng, stb, out, ml⟩ =
        some ⟨.int a.length :: s, vars, popWalk (s.length + 1) ml lb, rng, stb, out, ml⟩) ∧
    (∀ (run : StRunner) (n : Int) (s : List Gval) vars,
      StGs.comma run ⟨.int n :: s, vars, []⟩ =
        some ⟨.arr ((List.range n.toNat).map fun k : Nat => Gval.int (k : Int)) :: s, vars, []⟩) := by
  refine ⟨fun run n s vars lb rng stb out ml => ?_, fun _ _ _ _ _ _ _ _ _ => rfl,
    fun _ _ _ _ _ _ _ _ _ => rfl, fun run n s vars => ?_⟩
  · rw [show Gs.comma run ⟨.int n :: s, vars, lb, rng, stb, out, ml⟩ =
      some ⟨.arr (commaRangeLoop n ml 0) :: s, vars, popWalk (s.length + 1) ml lb,
        rng, stb, out, ml⟩ from rfl]
    rw [commaRangeLoop_eq n ml 0]
    simp
  · rw [show StGs.comma run ⟨.int n :: s, vars, []⟩ =
      some ⟨.arr (stRangeLoop 0 n) :: s, vars, []⟩ from rfl]
    rw [stRangeLoop_eq 0 n]
    simp

/-- Claim C10: the dollar operator on an Int n popped from a stack whose
remaining length is L: for 0 <= n < L it pushes a copy of the element n
positions from the top; for n <= -2 with -n-2 < L it pushes a copy of
the element at zero-based index -n-2 from the bottom (top-at-head index
L-1-(-n-2)); for n = -1 or n >= L nothing is pushed, so the net stack
effect is only the removal of n. -/
theorem claim_C10 :
    ∀ (run : Runner) (n : Int) (s : List Gval) vars lb rng stb out ml,
      (0 ≤ n → n < (s.length : Int) →
        Gs.dollar run ⟨.int n :: s, vars, lb, rng, stb, out, ml⟩ =
          some ⟨((s.get? n.toNat).getD (.arr [])) :: s, vars,
            popWalk (s.length + 1) ml lb, rng, stb, out, ml⟩) ∧
      (n ≤ -2 → (-n - 2).toNat < s.length →
        Gs.dollar run ⟨.int n :: s, vars, lb, rng, stb, out, ml⟩ =
          some ⟨((s.get? (s.length - 1 - (-n - 2).toNat)).getD (.arr [])) :: s, vars,
            popWalk (s.length + 1) ml lb, rng, stb, out, ml⟩) ∧
      (n = -1 →
        Gs.dollar run ⟨.int n :: s, vars, lb, rng, stb, out, ml⟩ =
          some ⟨s, vars, popWalk (s.length + 1) ml lb, rng, stb, out, ml⟩) ∧
      ((s.length : Int) ≤ n →
        Gs.dollar run ⟨.int n :: s, vars, lb, rng, stb, out, ml⟩ =
          some ⟨s, vars, popWalk (s.length + 1) ml lb, rng, stb, out, ml⟩) := by
  intro run n s vars lb rng stb out ml
  have hunfold : Gs.dollar run ⟨.int n :: s, vars, lb, rng, stb, out, ml⟩ =
      (let st1 : GsState := ⟨s, vars, popWalk (s.length + 1) ml lb, rng, stb, out, ml⟩
       let len : Int := st1.stack.length
       if n < -1 then
         let i := (-n - 2).toNat
         if i < st1.stack.length then
           some (Gs.push st1 ((st1.stack.get? (st1.stack.length - 1 - i)).getD (.arr [])))
         else some st1
       else if 0 ≤ n ∧ n < len then
         let i := (len - 1 - n).toNat
         some (Gs.push st1 ((st1.stack.get? (st1.stack.length - 1 - i)).getD (.arr [])))
       else some st1) := rfl
  refine ⟨fun h0 hlen => ?_, fun h2 hidx => ?_, fun hm1 => ?_, fun hge => ?_⟩
  · rw [hunfold]
    simp only []
    rw [if_neg (by omega), if_pos ⟨h0, by exact_mod_cast hlen⟩]
    have hi : (((s.length : Int) - 1 - n).toNat) = s.length - 1 - n.toNat := by omega
    have hj : s.length - 1 - (s.length - 1 - n.toNat) = n.toNat := by omega
    rw [hi, hj]
    rfl
  · rw [hunfold]
    simp only []
    rw [if_pos (by omega), if_pos hidx]
    rfl
  · rw [hunfold]
    simp only []
    rw [if_neg (by omega), if_neg (by omega)]
  · rw [hunfold]
    simp only []
    rw [if_neg (by omega), if_neg (by omega)]

/-- Witness for claim C10 at a concrete input: popping Int 1 from the
stack [10, 20, 30] copies the element one position from the top. -/
theorem claim_C10_witness :
    Gs.dollar (fun st _ => some st)
        ⟨[.int 1, .int 10, .int 20, .int 30], [], [], 0, true, [], 5⟩ =
      some ⟨[.int 20, .int 10, .int 20, .int 30], [], [], 0, true, [], 5⟩ :=
  (claim_C10 (fun st _ => some st) 1 [.int 10, .int 20, .int 30] [] [] 0 true [] 5).1
    (by decide) (by decide)

theorem fmod_bounds_of_neg (a b : Int) (hb : b < 0) :
    b < Int.fmod a b ∧ Int.fmod a b ≤ 0 := by
  match b with
  | Int.ofNat n =>
    have : (0 : Int) ≤ Int.ofNat n := Int.ofNat_nonneg n
    omega
  | Int.negSucc n =>
    have hns : Int.negSucc n = -((n : Int) + 1) := Int.negSucc_eq n
    match a with
    | Int.ofNat 0 =>
      rw [show Int.fmod (Int.ofNat 0) (Int.negSucc n) = 0 from rfl]
      omega
    | Int.ofNat (m+1) =>
      rw [show Int.fmod (Int.ofNat (m+1)) (Int.negSucc n) = Int.subNatNat (m % (n+1)) n from rfl]
      rw [Int.subNatNat_eq_coe]
      have := Nat.mod_lt m (show 0 < n+1 by omega)
      omega
    | Int.negSucc m =>
      rw [show Int.fmod (Int.negSucc m) (Int.negSucc n) = -Int.ofNat ((m+1) % (n+1)) from rfl]
      simp only [Int.ofNat_eq_natCast]
      have := Nat.mod_lt (m+1) (show 0 < n+1 by omega)
      omega

/-- Claim C7: in the sandboxed evaluator, slash and percent on two Int
operands (av below bv on the stack, bv the popped divisor) push Int 0
when bv is zero, and otherwise the floor quotient and the floor modulus.
The last three conjuncts give the meaning of floor division: the
quotient and remainder recompose av, and the remainder takes the sign of
bv (in [0, bv) for positive bv, in (bv, 0] for negative bv), which
uniquely characterizes the floor quotient. -/
theorem claim_C7 :
    ∀ (run : Runner) (bv av : Int) (s : List Gval) vars lb rng stb out ml,
      (Gs.slash run ⟨.int bv :: .int av :: s, vars, lb, rng, stb, out, ml⟩ =
        some ⟨.int (if bv = 0 then 0 else Int.fdiv av bv) :: s, vars,
          popWalk (s.length + 1) ml (popWalk (s.length + 2) ml lb), rng, stb, out, ml⟩) ∧
      (Gs.percent run ⟨.int bv :: .int av :: s, vars, lb, rng, stb, out, ml⟩ =
        some ⟨.int (if bv = 0 then 0 else Int.fmod av bv) :: s, vars,
          popWalk (s.length + 1) ml (popWalk (s.length + 2) ml lb), rng, stb, out, ml⟩) ∧
      (bv ≠ 0 → av = bv * Int.fdiv av bv + Int.fmod av bv) ∧
      (0 < bv → 0 ≤ Int.fmod av bv ∧ Int.fmod av bv < bv) ∧
      (bv < 0 → bv < Int.fmod av bv ∧ Int.fmod av bv ≤ 0) := by
  intro run bv av s vars lb rng stb out ml
  refine ⟨?_, ?_, fun _ => (Int.fdiv_add_fmod av bv).symm, fun h =>
    ⟨Int.fmod_nonneg' av h, Int.fmod_lt_of_pos av h⟩, fun h => fmod_bounds_of_neg av bv h⟩
  · by_cases h : bv = 0
    · subst h
      rfl
    · rw [if_neg h]
      rw [show Gs.slash run ⟨.int bv :: .int av :: s, vars, lb, rng, stb, out, ml⟩ =
        (if bv = 0 then
          some ⟨.int 0 :: s, vars,
            popWalk (s.length + 1) ml (popWalk (s.length + 2) ml lb), rng, stb, out, ml⟩
         else
          some ⟨.int (Int.fdiv av bv) :: s, vars,
            popWalk (s.length + 1) ml (popWalk (s.length + 2) ml lb), rng, stb, out, ml⟩)
        from rfl]
      rw [if_neg h]
  · by_cases h : bv = 0
    · subst h
      rfl
    · rw [if_neg h]
      rw [show Gs.percent run ⟨.int bv :: .int av :: s, vars, lb, rng, stb, out, ml⟩ =
        (if bv = 0 then
          some ⟨.int 0 :: s, vars,
            popWalk (s.length + 1) ml (popWalk (s.length + 2) ml lb), rng, stb, out, ml⟩
         else
          some ⟨.int (Int.fmod av bv) :: s, vars,
            popWalk (s.length + 1) ml (popWalk (s.length + 2) ml lb), rng, stb, out, ml⟩)
        from rfl]
      rw [if_neg h]

/-- Witness for claim C7 at a concrete input: 7 divided by -3 pushes the
floor quotient; the floor remainder of 7 by -3 is negative like the
divisor. -/
theorem claim_C7_witness :
    Gs.slash (fun st _ => some st) ⟨[.int (-3), .int 7], [], [], 0, true, [], 5⟩ =
      some ⟨[.int (-3)], [], [], 0, true, [], 5⟩ ∧
    ((-3 : Int) < Int.fmod 7 (-3) ∧ Int.fmod 7 (-3) ≤ 0) :=
  ⟨(claim_C7 (fun st _ => some st) (-3) 7 [] [] [] 0 true [] 5).1,
   (claim_C7 (fun st _ => some st) (-3) 7 [] [] [] 0 true [] 5).2.2.2.2 (by decide)⟩

/-- Claim C4 (counterexample): the claim asserts the power guard works
for every Int base including values outside the 32-bit range and
negative values; but the code converts the base to i32 with unwrap, so
the base 2^31 with exponent 1 panics (none) where the claim demands the
exact power 2^31; and for the negative base -2 with exponent 3 the f64
log is NaN, the guard comparison is false, and the base is pushed back
unchanged where the claim demands the exact power -8. -/
theorem claim_C4_counterexample :
    questionIntInt (2 ^ 31) 1 = none ∧
    questionIntInt (-2) 3 = some (.int (-2)) ∧
    (Gval.int (-2) : Gval) ≠ .int ((-2 : Int) ^ (3 : Nat)) := by
  refine ⟨by decide, by decide, by decide⟩

/-- Claim C4 (amended): for the sandboxed question on (Int, Int): an
exponent b outside u32 gives Int 0; a base a outside i32 panics; a
negative in-range base is pushed back unchanged (NaN guard); an in-range
base at least 1 gives the exact power below 10^100 and the base
unchanged at or above it; base 0 always gives Int 0 (including 0^0).
The strict evaluator computes the exact power whenever the exponent
fits u32, and 0 otherwise. -/
theorem claim_C4_amended :
    ∀ a b : Int,
      (toU32 b = none → questionIntInt a b = some (.int 0)) ∧
      (∀ e, toU32 b = some e → toI32 a = none → questionIntInt a b = none) ∧
      (∀ e, toU32 b = some e → toI32 a = some a → a < 0 →
        questionIntInt a b = some (.int a)) ∧
      (∀ e, toU32 b = some e → toI32 a = some a → 1 ≤ a → a ^ e < 10 ^ 100 →
        questionIntInt a b = some (.int (a ^ e))) ∧
      (∀ e, toU32 b = some e → toI32 a = some a → 1 ≤ a → (10 : Int) ^ 100 ≤ a ^ e →
        questionIntInt a b = some (.int a)) ∧
      (∀ e, toU32 b = some e → a = 0 → questionIntInt a b = some (.int 0)) ∧
      (∀ e, toU32 b = some e → strictQuestionIntInt a b = .int (a ^ e)) ∧
      (toU32 b = none → strictQuestionIntInt a b = .int 0) := by
  intro a b
  refine ⟨fun h => ?_, fun e he ha => ?_, fun e he ha hneg => ?_, fun e he ha h1 hlt => ?_,
    fun e he ha h1 hge => ?_, fun e he h0 => ?_, fun e he => ?_, fun h => ?_⟩
  · rw [questionIntInt, h]
  · rw [questionIntInt, he, ha]
  · rw [questionIntInt, he, ha]
    have hg : powGuardLt a e = false := by
      rw [powGuardLt, if_pos hneg]
    show some (Gval.int (if powGuardLt a e = true then a ^ e else a)) = some (Gval.int a)
    rw [hg]
    simp
  · rw [questionIntInt, he, ha]
    have hcast : ((a.toNat : Int)) = a := Int.toNat_of_nonneg (by omega)
    have hnat : a.toNat ^ e < 10 ^ 100 := by
      have : ((a.toNat ^ e : Nat) : Int) < ((10 ^ 100 : Nat) : Int) := by
        push_cast
        rw [hcast]
        exact_mod_cast hlt
      exact_mod_cast this
    have hg : powGuardLt a e = true := by
      rw [powGuardLt, if_neg (by omega), if_neg (by omega)]
      exact decide_eq_true hnat
    show some (Gval.int (if powGuardLt a e = true then a ^ e else a)) =
      some (Gval.int (a ^ e))
    rw [hg]
    simp
  · rw [questionIntInt, he, ha]
    have hcast : ((a.toNat : Int)) = a := Int.toNat_of_nonneg (by omega)
    have hnat : ¬ a.toNat ^ e < 10 ^ 100 := by
      intro hc
      have : ((a.toNat ^ e : Nat) : Int) < ((10 ^ 100 : Nat) : Int) := by exact_mod_cast hc
      push_cast at this
      rw [hcast] at this
      omega
    have hg : powGuardLt a e = false := by
      rw [powGuardLt, if_neg (by omega), if_neg (by omega)]
      exact decide_eq_false hnat
    show some (Gval.int (if powGuardLt a e = true then a ^ e else a)) = some (Gval.int a)
    rw [hg]
    simp
  · subst h0
    rw [questionIntInt, he]
    rw [show toI32 0 = some 0 from rfl]
    by_cases he0 : e = 0
    · subst he0
      rfl
    · have hg : powGuardLt 0 e = true := by
        rw [powGuardLt, if_neg (by omega), if_pos rfl]
        exact decide_eq_true he0
      show some (Gval.int (if powGuardLt 0 e = true then (0 : Int) ^ e else 0)) =
        some (Gval.int 0)
      rw [hg]
      simp [zero_pow he0]
  · rw [strictQuestionIntInt, he]
  · rw [strictQuestionIntInt, h]

set_option maxRecDepth 4000 in
/-- Witness for claim C4 at concrete inputs: 3 to the 4th is computed
exactly in the sandbox; the strict evaluator computes the power of a
base outside the 32-bit range. -/
theorem claim_C4_witness :
    questionIntInt 3 4 = some (.int 81) ∧
    strictQuestionIntInt (2 ^ 40) 2 = .int ((2 ^ 40 : Int) ^ (2 : Nat)) :=
  ⟨(claim_C4_amended 3 4).2.2.2.1 4 (by decide) (by decide) (by decide) (by decide),
   (claim_C4_amended (2 ^ 40) 2).2.2.2.2.2.2.1 2 (by decide)⟩

/-- Claim C3 (amended): in the sandboxed evaluator (run_token of
src/lib.rs), a token of any kind whose lexeme is bound in the variable
map executes the bound value (block runs, other kinds push) and nothing
else, overriding the built-in; the second conjunct runs the program
"0:+;1 2+" end to end: with plus rebound to 0, the plus token pushes 0
instead of adding, leaving the stack [1, 2, 0] (top first 0, 2, 1).
(In the strict evaluator of src/main.rs the built-in is additionally
applied after the bound value; see the counterexample.) -/
theorem claim_C3_amended :
    (∀ (run : Runner) (tok : Gtoken) (st : GsState) (v : Gval),
      lookupVar st.vars tok.lexeme = some v →
      runTokenWith run tok st = goWith run v st) ∧
    (runF 9 Gs.new [48, 58, 43, 59, 49, 32, 50, 43] =
      some ⟨[.int 0, .int 2, .int 1], [([43], .int 0)], [], 123456789, true, [],
        2 ^ 64 - 1⟩) := by
  constructor
  · intro run tok st v h
    rw [runTokenWith.eq_def, h]
  · rfl

/-- Claim C3 (counterexample): in the strict evaluator, run_builtin of
src/main.rs looks up the binding of a Symbol token and executes it but
does NOT return: the built-in is applied as well.  With plus bound to
Int 42 and stack [1, 2] (top first 2, 1), the claim predicts the state
after only executing the bound value (stack 42, 2, 1), but the code also
runs the built-in plus, leaving 44, 1. -/
theorem claim_C3_counterexample :
    strictRunBuiltin (fun st _ => some st) (.symbol [43])
        ⟨[.int 2, .int 1], [([43], .int 42)], []⟩ =
      some ⟨[.int 44, .int 1], [([43], .int 42)], []⟩ ∧
    some (⟨[.int 44, .int 1], [([43], .int 42)], []⟩ : StState) ≠
      stGoWith (fun st _ => some st) (.int 42) ⟨[.int 2, .int 1], [([43], .int 42)], []⟩ := by
  exact ⟨by decide, by decide⟩

/-- Witness for claim C3 at a concrete input: a plus token with plus
bound to Int 7 executes the binding (pushes 7). -/
theorem claim_C3_witness :
    runTokenWith (fun st _ => some st) (.symbol [43])
        ⟨[], [([43], .int 7)], [], 0, true, [], 5⟩ =
      goWith (fun st _ => some st) (.int 7) ⟨[], [([43], .int 7)], [], 0, true, [], 5⟩ :=
  claim_C3_amended.1 (fun st _ => some st) (.symbol [43])
    ⟨[], [([43], .int 7)], [], 0, true, [], 5⟩ (.int 7) (by decide)

/-- Claim C5: the sandboxed entry point pushes the input bytes as a Str
onto an otherwise fresh, empty-stack state, sets max_loops to 2000, runs
the program, replaces the final stack by a single Arr holding it (bottom
first), executes the puts token on it, and returns the accumulated
output-buffer bytes.  (The final puts is executed as a token, so a
program that rebinds the name puts has its binding honored, exactly as
run_token does.) -/
theorem claim_C5 :
    ∀ (fuel : Nat) (input source : List Nat),
      golfscript (fuel + 1) input source =
        (runF (fuel + 1) { Gs.new with maxLoops := 2000, stack := [Gval.str input] }
            source).bind
          fun st1 =>
            (runTokenWith (runF fuel) (Gtoken.symbol [112, 117, 116, 115])
                { st1 with stack := [Gval.arr st1.stack.reverse] }).map
              fun st3 => st3.output := by
  intro fuel input source
  have hrun : ∀ st : GsState, runF (fuel + 1) st [112, 117, 116, 115] =
      (runTokenWith (runF fuel) (Gtoken.symbol [112, 117, 116, 115]) st).bind some := by
    intro st
    show runStep (runF fuel) st [112, 117, 116, 115] = _
    rw [runStep]
    rw [show parseCode [112, 117, 116, 115] = ([], [Gtoken.symbol [112, 117, 116, 115]])
      from rfl]
    simp only [List.isEmpty_nil, if_true]
    rw [runTokensWith]
    rw [if_neg (by decide)]
    rfl
  rw [golfscript]
  cases h : runF (fuel + 1) { Gs.new with maxLoops := 2000, stack := [Gval.str input] }
      source with
  | none => rfl
  | some st1 =>
    simp only [Option.some_bind]
    rw [hrun]
    cases runTokenWith (runF fuel) (Gtoken.symbol [112, 117, 116, 115])
        { st1 with stack := [Gval.arr st1.stack.reverse] } <;> rfl

theorem timesLoop_count_le (run : Runner) (f : List Nat) :
    ∀ (budget : Nat) (n : Int) (st st2 : GsState) (k : Nat),
      timesLoop run f n budget st = some (st2, k) → k ≤ budget
  | 0, n, st, st2, k => by
    intro h
    simp only [timesLoop, Option.some.injEq, Prod.mk.injEq] at h
    omega
  | budget + 1, n, st, st2, k => by
    intro h
    simp only [timesLoop] at h
    split at h
    · cases hr : run st f with
      | none => rw [hr] at h; simp at h
      | some st1 =>
        rw [hr] at h
        simp only [Option.some_bind, Option.map_eq_some'] at h
        obtain ⟨⟨st3, k3⟩, h1, h2⟩ := h
        cases h2
        have := timesLoop_count_le run f budget (n - 1) st1 st3 k3 h1
        dsimp only
        omega
    · simp only [Option.some.injEq, Prod.mk.injEq] at h
      omega

theorem doLoopGo_count_le (run : Runner) (a : Gval) :
    ∀ (budget : Nat) (st st2 : GsState) (k : Nat),
      doLoopGo run a budget st = some (st2, k) → k ≤ budget
  | 0, st, st2, k => by
    intro h
    simp only [doLoopGo, Option.some.injEq, Prod.mk.injEq] at h
    omega
  | budget + 1, st, st2, k => by
    intro h
    simp only [doLoopGo] at h
    cases hg : goWith run a st with
    | none => rw [hg] at h; simp at h
    | some st1 =>
      rw [hg] at h
      simp only [Option.some_bind] at h
      split at h
      next f stf heq =>
        split at h
        · simp only [Option.some.injEq, Prod.mk.injEq] at h
          omega
        · simp only [Option.map_eq_some'] at h
          obtain ⟨⟨st3, k3⟩, h1, h2⟩ := h
          cases h2
          have := doLoopGo_count_le run a budget stf st3 k3 h1
          dsimp only
          omega
      next stf heq =>
        simp only [Option.some.injEq, Prod.mk.injEq] at h
        omega

theorem whileLoopGo_count_le (run : Runner) (which : Bool) (a b : Gval) :
    ∀ (budget : Nat) (st st2 : GsState) (k : Nat),
      whileLoopGo run which a b budget st = some (st2, k) → k ≤ budget
  | 0, st, st2, k => by
    intro h
    simp only [whileLoopGo, Option.some.injEq, Prod.mk.injEq] at h
    omega
  | budget + 1, st, st2, k => by
    intro h
    simp only [whileLoopGo] at h
    cases hg : goWith run a st with
    | none => rw [hg] at h; simp at h
    | some st1 =>
      rw [hg] at h
      simp only [Option.some_bind] at h
      split at h
      next f stf heq =>
        split at h
        · simp only [Option.some.injEq, Prod.mk.injEq] at h
          omega
        · cases hb : goWith run b stf with
          | none => rw [hb] at h; simp at h
          | some st3 =>
            rw [hb] at h
            simp only [Option.some_bind, Option.map_eq_some'] at h
            obtain ⟨⟨st4, k4⟩, h1, h2⟩ := h
            cases h2
            have := whileLoopGo_count_le run which a b budget st3 st4 k4 h1
            dsimp only
            omega
      next stf heq =>
        split at h
        · simp only [Option.some.injEq, Prod.mk.injEq] at h
          omega
        · cases hb : goWith run b stf with
          | none => rw [hb] at h; simp at h
          | some st3 =>
            rw [hb] at h
            simp only [Option.some_bind, Option.map_eq_some'] at h
            obtain ⟨⟨st4, k4⟩, h1, h2⟩ := h
            cases h2
            have := whileLoopGo_count_le run which a b budget st3 st4 k4 h1
            dsimp only
            omega

theorem unfoldLoop_count_le (run : Runner) (cond step : List Nat) :
    ∀ (budget : Nat) (st st2 : GsState) (r : List Gval) (k : Nat),
      unfoldLoop run cond step budget st = some (st2, r, k) → k ≤ budget
  | 0, st, st2, r, k => by
    intro h
    simp only [unfoldLoop, Option.some.injEq, Prod.mk.injEq] at h
    omega
  | budget + 1, st, st2, r, k => by
    intro h
    simp only [unfoldLoop] at h
    cases hc : run (match st.stack.head? with
        | some t => Gs.push st t
        | none => Gs.push st (.arr [])) cond with
    | none => rw [hc] at h; simp at h
    | some stc =>
      rw [hc] at h
      simp only [Option.some_bind] at h
      split at h
      next stf heq =>
        simp only [Option.some.injEq, Prod.mk.injEq] at h
        omega
      next f1 stf heq =>
        split at h
        · simp only [Option.some.injEq, Prod.mk.injEq] at h
          omega
        · cases hs : run stf step with
          | none => rw [hs] at h; simp at h
          | some st3 =>
            rw [hs] at h
            simp only [Option.some_bind, Option.map_eq_some'] at h
            obtain ⟨⟨st4, r4, k4⟩, h1, h2⟩ := h
            cases h2
            have := unfoldLoop_count_le run cond step budget st3 st4 r4 k4 h1
            dsimp only
            omega

theorem commaRangeLoop_length_le (n : Int) :
    ∀ (budget : Nat) (i : Int), (commaRangeLoop n budget i).length ≤ budget
  | 0, i => by simp [commaRangeLoop]
  | budget + 1, i => by
    rw [commaRangeLoop]
    split
    · simpa using Nat.succ_le_succ (commaRangeLoop_length_le n budget (i + 1))
    · simp

theorem zipPadLoop_length_le (blank : Gval) (target : Nat) :
    ∀ (budget : Nat) (r : List Gval),
      (zipPadLoop blank target budget r).length ≤ r.length + budget
  | 0, r => by simp [zipPadLoop]
  | budget + 1, r => by
    rw [zipPadLoop]
    split
    · have := zipPadLoop_length_le blank target budget (r ++ [blank])
      simp only [List.length_append, List.length_cons, List.length_nil] at this
      omega
    · omega

theorem baseDigitsLoop_length_le (b : Int) :
    ∀ (budget : Nat) (i : Int) (ds : List Gval),
      baseDigitsLoop b budget i = some ds → ds.length ≤ budget
  | 0, i, ds => by
    intro h
    simp only [baseDigitsLoop] at h
    cases h
    simp
  | budget + 1, i, ds => by
    intro h
    simp only [baseDigitsLoop] at h
    split at h
    · cases h
      simp
    · split at h
      · simp at h
      · simp only [Option.map_eq_some'] at h
        obtain ⟨ds2, h1, h2⟩ := h
        cases h2
        have := baseDigitsLoop_length_le b budget (Int.fdiv i b) ds2 h1
        simp only [List.length_cons]
        omega

/-- Claim C6 (counterexample): chunk is implemented as a utility without
access to the evaluator, so its loop is not capped by max_loops: for the
possible cap value max_loops = 0, chunking a one-element sequence by 1
performs one iteration (produces one chunk), exceeding the cap. -/
theorem claim_C6_counterexample : ¬ ((gsChunk [Gval.int 0] 1).length ≤ 0) := by
  rw [show gsChunk [Gval.int 0] 1 = [[Gval.int 0]] by
    rw [gsChunk]
    norm_num
    rw [chunksOf.eq_def]
    simp only [List.take_nil, List.drop_nil]
    rw [chunksOf.eq_def]]
  simp

/-- Claim C6 (amended): in the sandboxed evaluator the capped loops of
times (asterisk on Int and Blk), while and until, do, unfold (slash on
two Blks), range (comma on Int), zip padding and base digit extraction
each perform at most max_loops iterations (the budget argument their
operators instantiate with max_loops) and exit silently; the chunk
utility, by contrast, has no access to max_loops and iterates once per
produced chunk (see the counterexample). -/
theorem claim_C6_amended :
    (∀ (run : Runner) (f : List Nat) (budget : Nat) (n : Int) (st st2 : GsState) (k : Nat),
      timesLoop run f n budget st = some (st2, k) → k ≤ budget) ∧
    (∀ (run : Runner) (which : Bool) (a b : Gval) (budget : Nat) (st st2 : GsState) (k : Nat),
      whileLoopGo run which a b budget st = some (st2, k) → k ≤ budget) ∧
    (∀ (run : Runner) (a : Gval) (budget : Nat) (st st2 : GsState) (k : Nat),
      doLoopGo run a budget st = some (st2, k) → k ≤ budget) ∧
    (∀ (run : Runner) (cond step : List Nat) (budget : Nat) (st st2 : GsState)
        (r : List Gval) (k : Nat),
      unfoldLoop run cond step budget st = some (st2, r, k) → k ≤ budget) ∧
    (∀ (n : Int) (budget : Nat) (i : Int), (commaRangeLoop n budget i).length ≤ budget) ∧
    (∀ (blank : Gval) (target budget : Nat) (r : List Gval),
      (zipPadLoop blank target budget r).length ≤ r.length + budget) ∧
    (∀ (b : Int) (budget : Nat) (i : Int) (ds : List Gval),
      baseDigitsLoop b budget i = some ds → ds.length ≤ budget) :=
  ⟨fun run f budget n st st2 k => timesLoop_count_le run f budget n st st2 k,
   fun run which a b budget st st2 k => whileLoopGo_count_le run which a b budget st st2 k,
   fun run a budget st st2 k => doLoopGo_count_le run a budget st st2 k,
   fun run cond step budget st st2 r k => unfoldLoop_count_le run cond step budget st st2 r k,
   fun n budget i => commaRangeLoop_length_le n budget i,
   fun blank target budget r => zipPadLoop_length_le blank target budget r,
   fun b budget i ds => baseDigitsLoop_length_le b budget i ds⟩

/-- Witness for claim C6 at a concrete input: a times loop over a no-op
runner with counter 5 and budget 3 performs exactly 3 iterations, within
the bound. -/
theorem claim_C6_witness : (3 : Nat) ≤ 3 :=
  claim_C6_amended.1 (fun st _ => some st) [] 3 5 Gs.new Gs.new 3 (by decide)
